import Mathlib

/-!
Verification of the A* pathfinding engine (`src/services/pathfinding.js`) of the
express-path-api repository.  The JavaScript code is shallowly embedded:

* JS numbers are modelled as rationals (`ℚ`);
* JS `Map` objects are modelled as association lists with `set = cons`
  (lookup finds the most recent binding, matching `Map.set`/`Map.get`);
* the `while` loops of the A* search, of the heap sift operations and of path
  reconstruction are modelled with explicit fuel; every fuel value used by the
  top-level entry points is proved (or chosen) large enough that exhaustion
  cannot occur on the states the code actually reaches, so the embedding
  computes exactly what the JavaScript computes;
* a JS `TypeError` (reading a property of `undefined`, possible in
  `reconstructPath` when a node id is missing from the node cache) is modelled
  by an explicit `crash` outcome.
-/

set_option maxHeartbeats 1000000

-- The Batteries rational operations are sealed; unseal them so that concrete
-- runs of the embedded code can be evaluated by `decide`.
attribute [local semireducible] Rat.add Rat.mul Rat.inv Rat.sub Rat.ofScientific

namespace PathApi

/-! ### Data model: nodes, edges, database (the external data layer) -/

/-- A node row, as cached by `buildGraph` via `node.toJSON()`. -/
structure Node where
  node_id : Nat
  node_code : String
  name : String
  building : String
  floor_level : Int
  type_of_node : String
  image360 : Option String
  map_x : Option ℚ
  map_y : Option ℚ
deriving Repr, DecidableEq

/-- An edge row.  Only rows with `is_active = true` take part in routing. -/
structure Edge where
  edge_id : Nat
  from_node_id : Nat
  to_node_id : Nat
  distance : ℚ
  compass_angle : ℚ
  is_staircase : Bool
  is_active : Bool
deriving Repr, DecidableEq

/-- The external data layer (the `Nodes` and `Edges` tables). -/
structure Database where
  nodes : List Node
  edges : List Edge
deriving Repr, DecidableEq

/-- `Nodes.findOne({ where: { node_code: code } })`: first row matching the code. -/
def resolveCode (db : Database) (code : String) : Option Node :=
  db.nodes.find? (fun n => n.node_code == code)

/-! ### JS number helpers -/

/-- Truncation toward zero, as JS `%` uses for its implicit division. -/
def jsTrunc (q : ℚ) : Int :=
  if 0 ≤ q then ⌊q⌋ else ⌈q⌉

/-- The JS remainder operator `a % b` on numbers (sign follows the dividend). -/
def jsMod (a b : ℚ) : ℚ :=
  a - b * (jsTrunc (a / b) : ℚ)

/-- JS `Math.round` (round half toward positive infinity). -/
def jsRound (q : ℚ) : Int :=
  ⌊q + 1/2⌋

/-- `Math.round(t * 100) / 100`: rounding to two decimal places. -/
def round2 (q : ℚ) : ℚ :=
  (jsRound (q * 100) : ℚ) / 100

/-! ### The graph snapshot built by `buildGraph` -/

/-- One adjacency option, as pushed by `buildGraph` onto an adjacency list.
`toId` models the `to` field of the JS object (`to` is reserved in Lean). -/
structure EdgeInfo where
  toId : Nat
  distance : ℚ
  compass_angle : ℚ
  is_staircase : Bool
  edge_id : Nat
deriving Repr, DecidableEq

/-- The in-memory snapshot: the cached node rows and the active edge rows the
adjacency lists are derived from. -/
structure Snapshot where
  nodes : List Node
  activeEdges : List Edge
deriving Repr, DecidableEq

/-- `buildGraph`: cache all nodes and all `is_active` edges. -/
def Snapshot.build (db : Database) : Snapshot :=
  { nodes := db.nodes, activeEdges := db.edges.filter (fun e => e.is_active) }

/-- `this.nodesCache.get(id)`.  `Map.set` lets a later row with the same id
override an earlier one, hence the reverse-order search. -/
def cacheGet (s : Snapshot) (id : Nat) : Option Node :=
  s.nodes.reverse.find? (fun n => n.node_id == id)

/-- `this.graph.has(id)`: the adjacency map has one key per cached node. -/
def hasNode (s : Snapshot) (id : Nat) : Bool :=
  s.nodes.any (fun n => n.node_id == id)

/-- The forward adjacency entry pushed for an edge. -/
def forwardInfo (e : Edge) : EdgeInfo :=
  { toId := e.to_node_id, distance := e.distance, compass_angle := e.compass_angle,
    is_staircase := e.is_staircase, edge_id := e.edge_id }

/-- The reverse (synthetic bidirectional) entry: heading rotated by 180°. -/
def reverseInfo (e : Edge) : EdgeInfo :=
  { toId := e.from_node_id, distance := e.distance,
    compass_angle := jsMod (e.compass_angle + 180) 360,
    is_staircase := e.is_staircase, edge_id := e.edge_id }

/-- The entries a single stored edge contributes to the adjacency list of `id`
(forward entry first, then the reverse one, as in the loop body). -/
def edgeOptionsFor (id : Nat) (e : Edge) : List EdgeInfo :=
  (if e.from_node_id = id then [forwardInfo e] else []) ++
    (if e.to_node_id = id then [reverseInfo e] else [])

/-- `this.graph.get(id) || []`: the adjacency list of `id` in the snapshot. -/
def neighborsOf (s : Snapshot) (id : Nat) : List EdgeInfo :=
  if hasNode s id then (s.activeEdges.map (edgeOptionsFor id)).flatten else []

/-- `heuristic`: `|floor_level a - floor_level b| * 4.0`, `0` on a cache miss. -/
def heuristic (s : Snapshot) (a b : Nat) : ℚ :=
  match cacheGet s a, cacheGet s b with
  | some na, some nb => |(na.floor_level : ℚ) - (nb.floor_level : ℚ)| * 4
  | _, _ => 0

/-! ### The binary min-heap -/

/-- A `{ priority, value }` object stored in the heap array. -/
structure HeapEntry where
  priority : ℚ
  value : Nat
deriving Repr, DecidableEq

/-- `heap[i].priority < heap[j].priority`, false when either index is out of
bounds (mirrors the short-circuited bound checks of `bubbleDown`). -/
def ltAt (l : List HeapEntry) (i j : Nat) : Bool :=
  match l[i]?, l[j]? with
  | some a, some b => a.priority < b.priority
  | _, _ => false

/-- Swap two positions of the array (both in bounds whenever the code swaps). -/
def swapAt (l : List HeapEntry) (i j : Nat) : List HeapEntry :=
  match l[i]?, l[j]? with
  | some a, some b => (l.set i b).set j a
  | _, _ => l

/-- The `bubbleUp` loop.  The loop walks from `index` up along parents, so
`index` strictly decreases; `fuel > index` keeps the recursion structural
without cutting any iteration short. -/
def bubbleUpGo : Nat → List HeapEntry → Nat → List HeapEntry
  | _, l, 0 => l
  | 0, l, _ + 1 => l
  | fuel + 1, l, index + 1 =>
    let parent := index / 2
    match l[parent]?, l[index + 1]? with
    | some pe, some ie =>
      if pe.priority ≤ ie.priority then l
      else bubbleUpGo fuel (swapAt l parent (index + 1)) parent
    | _, _ => l

/-- The `bubbleDown` loop.  `index` strictly increases and the loop stops as
soon as `index` has no in-bounds child, so `fuel = length + 1` is enough. -/
def bubbleDownGo : Nat → List HeapEntry → Nat → List HeapEntry
  | 0, l, _ => l
  | fuel + 1, l, index =>
    let left := 2 * index + 1
    let right := 2 * index + 2
    let s1 := if ltAt l left index then left else index
    let s2 := if ltAt l right s1 then right else s1
    if s2 = index then l
    else bubbleDownGo fuel (swapAt l s2 index) s2

/-- The `MinHeap` object: a growable array of entries. -/
structure MinHeap where
  heap : List HeapEntry
deriving Repr, DecidableEq

def MinHeap.empty : MinHeap := { heap := [] }

/-- `push(priority, value)`: append, then sift up from the last index. -/
def MinHeap.push (h : MinHeap) (priority : ℚ) (value : Nat) : MinHeap :=
  let l := h.heap ++ [{ priority := priority, value := value }]
  { heap := bubbleUpGo l.length l (l.length - 1) }

/-- `pop()`: `null` on empty; otherwise extract the root, move the last array
element to the root and sift it down. -/
def MinHeap.pop (h : MinHeap) : Option (HeapEntry × MinHeap) :=
  match h.heap with
  | [] => none
  | [e] => some (e, MinHeap.empty)
  | e :: f :: rest =>
    let l := ((e :: f :: rest).dropLast).set 0
      ((f :: rest).getLast (List.cons_ne_nil f rest))
    some (e, { heap := bubbleDownGo (l.length + 1) l 0 })

def MinHeap.isEmpty (h : MinHeap) : Bool :=
  h.heap.isEmpty

/-! ### JS `Map`s as association lists -/

/-- `Map.get`: the most recent binding of the key (maps are updated by
consing, so the first hit is the current value). -/
def mapGet {α : Type} (m : List (Nat × α)) (k : Nat) : Option α :=
  (m.find? (fun p => p.1 == k)).map (fun p => p.2)

/-- `Map.set`. -/
def mapSet {α : Type} (m : List (Nat × α)) (k : Nat) (v : α) : List (Nat × α) :=
  (k, v) :: m

/-! ### The A* search -/

/-- A `cameFrom` record: `{ prev: previous_node_id, edge: edge_info }`. -/
structure Came where
  prev : Nat
  edge : EdgeInfo
deriving Repr, DecidableEq

/-- The mutable state of the `findPath` loop. -/
structure SearchState where
  heap : MinHeap
  cameFrom : List (Nat × Came)
  gScore : List (Nat × ℚ)
  fScore : List (Nat × ℚ)
  visited : List Nat
deriving Repr, DecidableEq

/-- The body of the neighbor loop: relax one adjacency option of `currentId`.
`gScore.get(currentId)` always succeeds when the loop runs (every popped node
was pushed together with a `gScore` entry); the `getD 0` default is never
exercised. -/
def relaxEdge (snap : Snapshot) (avoidStairs : Bool) (goalId currentId : Nat)
    (s : SearchState) (e : EdgeInfo) : SearchState :=
  if avoidStairs && e.is_staircase then s
  else
    let tentativeG := (mapGet s.gScore currentId).getD 0 + e.distance
    let better :=
      match mapGet s.gScore e.toId with
      | none => true
      | some g => decide (tentativeG < g)
    if better then
      let f := tentativeG + heuristic snap e.toId goalId
      { heap := s.heap.push f e.toId,
        cameFrom := mapSet s.cameFrom e.toId { prev := currentId, edge := e },
        gScore := mapSet s.gScore e.toId tentativeG,
        fScore := mapSet s.fScore e.toId f,
        visited := s.visited }
    else s

/-- What the `while (!openSet.isEmpty())` loop ends with. -/
inductive SearchResult where
  | found (s : SearchState)
  | exhausted
deriving Repr, DecidableEq

/-- The A* main loop.  `none` models fuel exhaustion and is proved impossible
for the fuel `findPath` supplies (`searchLoop_isSome` below). -/
def searchLoop (snap : Snapshot) (avoidStairs : Bool) (goalId : Nat) :
    Nat → SearchState → Option SearchResult
  | 0, _ => none
  | fuel + 1, s =>
    match s.heap.pop with
    | none => some SearchResult.exhausted
    | some (entry, heap') =>
      let currentId := entry.value
      if s.visited.contains currentId then
        searchLoop snap avoidStairs goalId fuel { s with heap := heap' }
      else
        let s1 : SearchState :=
          { s with heap := heap', visited := currentId :: s.visited }
        if currentId = goalId then some (SearchResult.found s1)
        else
          searchLoop snap avoidStairs goalId fuel
            ((neighborsOf snap currentId).foldl
              (relaxEdge snap avoidStairs goalId currentId) s1)

/-- One entry of the returned `path` array. -/
structure PathStep where
  node_id : Nat
  node_code : String
  name : String
  building : String
  floor_level : Int
  type : String
  image360 : Option String
  map_x : Option ℚ
  map_y : Option ℚ
  distance_from_prev : ℚ
  compass_angle : Option ℚ
  is_staircase : Bool
deriving Repr, DecidableEq

/-- `node.image360 || null`: an empty string is falsy and becomes `null`. -/
def orNull (o : Option String) : Option String :=
  match o with
  | some s => if s = "" then none else some s
  | none => none

/-- The step pushed for a non-start node, from its cached row and the incoming
edge. -/
def mkStep (n : Node) (e : EdgeInfo) : PathStep :=
  { node_id := n.node_id, node_code := n.node_code, name := n.name,
    building := n.building, floor_level := n.floor_level,
    type := n.type_of_node, image360 := orNull n.image360,
    map_x := n.map_x, map_y := n.map_y,
    distance_from_prev := e.distance, compass_angle := some e.compass_angle,
    is_staircase := e.is_staircase }

/-- The step pushed for the start node: zero distance, `null` compass angle. -/
def mkStartStep (n : Node) : PathStep :=
  { node_id := n.node_id, node_code := n.node_code, name := n.name,
    building := n.building, floor_level := n.floor_level,
    type := n.type_of_node, image360 := orNull n.image360,
    map_x := n.map_x, map_y := n.map_y,
    distance_from_prev := 0, compass_angle := none, is_staircase := false }

/-- The success record returned by `reconstructPath`. -/
structure PathResult where
  path : List PathStep
  total_distance : ℚ
  num_nodes : Nat
  start : Option PathStep
  goal : Option PathStep
deriving Repr, DecidableEq

/-- The `while (currentId !== startId)` loop of `reconstructPath`.  It appends
one step per predecessor link; a missing `cameFrom` entry breaks out of the
loop (as in the source); a missing node-cache entry is the JS `TypeError`
crash, modelled by `none`.  Exhausting the fuel would mean the predecessor
links form a cycle, which would make the JS loop diverge; the fuel supplied by
`reconstructPath` is proved sufficient on every state `findPath` produces. -/
def reconstructGo (snap : Snapshot) (cameFrom : List (Nat × Came))
    (startId : Nat) : Nat → Nat → List PathStep → Option (List PathStep)
  | 0, currentId, acc => if currentId = startId then some acc else none
  | fuel + 1, currentId, acc =>
    if currentId = startId then some acc
    else
      match mapGet cameFrom currentId with
      | none => some acc
      | some c =>
        match cacheGet snap currentId with
        | none => none
        | some node =>
          reconstructGo snap cameFrom startId fuel c.prev
            (acc ++ [mkStep node c.edge])

/-- `reconstructPath(cameFrom, startId, goalId, totalDistance)`. -/
def reconstructPath (snap : Snapshot) (cameFrom : List (Nat × Came))
    (startId goalId : Nat) (totalDistance : ℚ) : Option PathResult :=
  match reconstructGo snap cameFrom startId (cameFrom.length + 1) goalId [] with
  | none => none
  | some p =>
    match cacheGet snap startId with
    | none => none
    | some startNode =>
      let path := (p ++ [mkStartStep startNode]).reverse
      some { path := path, total_distance := round2 totalDistance,
             num_nodes := path.length, start := path.head?,
             goal := path.getLast? }

/-! ### `findPath` -/

/-- The error objects `findPath` can return, paired with their messages. -/
inductive RouteError where
  | startNotFound (code : String)
  | goalNotFound (code : String)
  | noPathFound
deriving Repr, DecidableEq

/-- The `error` string of each error object. -/
def RouteError.message : RouteError → String
  | RouteError.startNotFound code => "Start node not found: " ++ code
  | RouteError.goalNotFound code => "Goal node not found: " ++ code
  | RouteError.noPathFound => "No path found between the specified nodes"

/-- The observable outcome of a `findPath` call. -/
inductive FindOutcome where
  | ok (r : PathResult)
  | err (e : RouteError)
  | crash
deriving Repr, DecidableEq

/-- The engine: the `initialized` flag (named `built` here) and the snapshot. -/
structure PathFinder where
  built : Bool
  snap : Snapshot
deriving Repr, DecidableEq

/-- A freshly constructed `PathFinder`. -/
def PathFinder.init : PathFinder :=
  { built := false, snap := { nodes := [], activeEdges := [] } }

/-- `reset()`: drop the snapshot and mark the engine unbuilt. -/
def PathFinder.reset (_pf : PathFinder) : PathFinder :=
  PathFinder.init

/-- An upper bound on the number of iterations of the A* loop: one initial
heap entry, plus, for every distinct node id, one skip and one push per
adjacency option (`+ 2` turns the bound into usable fuel). -/
def nodeIds (s : Snapshot) : List Nat :=
  (s.nodes.map (fun n => n.node_id)).dedup

def nodeWeight (s : Snapshot) (id : Nat) : Nat :=
  1 + (neighborsOf s id).length

def searchFuel (s : Snapshot) : Nat :=
  ((nodeIds s).map (nodeWeight s)).sum + 2

/-- The initial search state of a `findPath` call. -/
def initState (snap : Snapshot) (startId goalId : Nat) : SearchState :=
  { heap := MinHeap.empty.push 0 startId,
    cameFrom := [],
    gScore := [(startId, 0)],
    fScore := [(startId, heuristic snap startId goalId)],
    visited := [] }

/-- Running the A* loop with the fuel `findPath` supplies. -/
def searchOutcome (snap : Snapshot) (avoidStairs : Bool)
    (startId goalId : Nat) : Option SearchResult :=
  searchLoop snap avoidStairs goalId (searchFuel snap)
    (initState snap startId goalId)

/-- `findPath(startCode, goalCode, avoidStairs)`.  Returns the outcome and the
engine state after the call (the snapshot is built lazily on first use).  The
`none` branch of the loop is dead: `searchLoop_isSome` below shows the fuel
never runs out; it is mapped to `crash` so that it can never be confused with
a real outcome. -/
def PathFinder.findPath (pf : PathFinder) (db : Database)
    (startCode goalCode : String) (avoidStairs : Bool) :
    FindOutcome × PathFinder :=
  let snap := if pf.built then pf.snap else Snapshot.build db
  let pf' : PathFinder := { built := true, snap := snap }
  match resolveCode db startCode with
  | none => (FindOutcome.err (RouteError.startNotFound startCode), pf')
  | some startNode =>
    match resolveCode db goalCode with
    | none => (FindOutcome.err (RouteError.goalNotFound goalCode), pf')
    | some goalNode =>
      let startId := startNode.node_id
      let goalId := goalNode.node_id
      match searchOutcome snap avoidStairs startId goalId with
      | none => (FindOutcome.crash, pf')
      | some SearchResult.exhausted =>
        (FindOutcome.err RouteError.noPathFound, pf')
      | some (SearchResult.found s) =>
        match reconstructPath snap s.cameFrom startId goalId
            ((mapGet s.gScore goalId).getD 0) with
        | none => (FindOutcome.crash, pf')
        | some r => (FindOutcome.ok r, pf')

/-! ### `compassToDirection` -/

/-- The 16-point compass rose, clockwise from North. -/
def compassDirections : List String :=
  ["North", "North-Northeast", "Northeast", "East-Northeast",
   "East", "East-Southeast", "Southeast", "South-Southeast",
   "South", "South-Southwest", "Southwest", "West-Southwest",
   "West", "West-Northwest", "Northwest", "North-Northwest"]

/-- `compassToDirection(angle)`.  A negative index (possible only for angles
below `-11.25`) reads `undefined` from the JS array, modelled as `none`. -/
def compassToDirection (angle : ℚ) : Option String :=
  let index : Int := Int.tmod ⌊(angle + 11.25) / 22.5⌋ 16
  if index < 0 then none else compassDirections[index.toNat]?

/-! ### Outcome accessors (used to state concrete-run theorems) -/

/-- The summed `distance_from_prev` fields of a step list. -/
def sumDist (l : List PathStep) : ℚ :=
  (l.map (fun s => s.distance_from_prev)).sum

def FindOutcome.isOk : FindOutcome → Bool
  | FindOutcome.ok _ => true
  | _ => false

/-- The `total_distance` of a successful outcome. -/
def FindOutcome.total? : FindOutcome → Option ℚ
  | FindOutcome.ok r => some r.total_distance
  | _ => none

/-- The summed step distances of a successful outcome. -/
def FindOutcome.stepSum? : FindOutcome → Option ℚ
  | FindOutcome.ok r => some (sumDist r.path)
  | _ => none

/-- The node codes along the path of a successful outcome. -/
def FindOutcome.codes? : FindOutcome → Option (List String)
  | FindOutcome.ok r => some (r.path.map (fun s => s.node_code))
  | _ => none

/-! ### Concrete databases for the spec's scenarios -/

/-- A node with the given id, code and floor (remaining attributes fixed). -/
def mkNode (id : Nat) (code : String) (floor : Int) : Node :=
  { node_id := id, node_code := code, name := code, building := "Main",
    floor_level := floor, type_of_node := "room", image360 := none,
    map_x := none, map_y := none }

/-- An active edge with the given endpoints, distance, angle and stair flag. -/
def mkEdge (eid a b : Nat) (d angle : ℚ) (stair : Bool) : Edge :=
  { edge_id := eid, from_node_id := a, to_node_id := b, distance := d,
    compass_angle := angle, is_staircase := stair, is_active := true }

/-- The spec's concrete scenario: `A(floor 0), B(floor 0), C(floor 1)`;
`A→B` distance 10 angle 90, `B→C` distance 5 angle 0 staircase. -/
def dbABC : Database :=
  { nodes := [mkNode 1 ("A") 0, mkNode 2 ("B") 0, mkNode 3 ("C") 1],
    edges := [mkEdge 1 1 2 10 90 false, mkEdge 2 2 3 5 0 true] }

/-- A graph on which the floor heuristic (4 m per floor) overestimates: the
direct edge `S→P` costs 10, the detour `S→Q→P` costs 3, but `Q` sits far from
the goal's floor, so A* finalizes `P` (and through it the goal) before the
cheaper route to `P` is discovered. -/
def dbOverestimate : Database :=
  { nodes := [mkNode 1 ("S") 0, mkNode 2 ("P") 3, mkNode 3 ("Q") 0,
              mkNode 4 ("G") 3],
    edges := [mkEdge 1 1 2 10 0 false, mkEdge 2 1 3 1 0 false,
              mkEdge 3 3 2 2 0 false, mkEdge 4 2 4 5 0 false] }

/-! ### Heap specification predicates -/

/-- If positions `i` and `j` are both in bounds, the entry at `i` has priority
at most that of the entry at `j` (vacuously true out of bounds). -/
def heapLe (l : List HeapEntry) (i j : Nat) : Prop :=
  ∀ a b, l[i]? = some a → l[j]? = some b → a.priority ≤ b.priority

/-- The binary min-heap ordering on the backing array: every non-root entry is
at least its parent. -/
def IsHeap (l : List HeapEntry) : Prop :=
  ∀ j, 0 < j → heapLe l ((j - 1) / 2) j

/-- The sift-up loop invariant: the heap ordering holds on every edge not
ending at the hole `i`, and the parent of `i` is already at most both
children of `i`. -/
def UpInv (l : List HeapEntry) (i : Nat) : Prop :=
  (∀ j, 0 < j → j ≠ i → heapLe l ((j - 1) / 2) j) ∧
  (0 < i → ∀ j, (j - 1) / 2 = i → heapLe l ((i - 1) / 2) j)

/-- The sift-down loop invariant: the heap ordering holds on every edge not
starting at the hole `i`, and the parent of `i` is already at most both
children of `i`. -/
def DownInv (l : List HeapEntry) (i : Nat) : Prop :=
  (∀ j, 0 < j → (j - 1) / 2 ≠ i → heapLe l ((j - 1) / 2) j) ∧
  (0 < i → ∀ j, (j - 1) / 2 = i → heapLe l ((i - 1) / 2) j)

/-- The states reachable from the empty queue by `push` and `pop` calls. -/
inductive HeapReachable : MinHeap → Prop where
  | empty : HeapReachable MinHeap.empty
  | push (h : MinHeap) (p : ℚ) (v : Nat) :
      HeapReachable h → HeapReachable (h.push p v)
  | pop (h : MinHeap) (e : HeapEntry) (h2 : MinHeap) :
      HeapReachable h → h.pop = some (e, h2) → HeapReachable h2

/-! ### Search specification predicates -/

/-- The termination measure of the A* loop: heap size plus, for every not yet
finalized node of the snapshot, one skip plus one push per adjacency option. -/
def searchMeasure (snap : Snapshot) (s : SearchState) : Nat :=
  s.heap.heap.length +
    (((nodeIds snap).filter (fun id => ! s.visited.contains id)).map
      (nodeWeight snap)).sum

/-- The predecessor chain recorded in `cameFrom`: `Chain cf startId n l` says
that following `prev` links from `n` reaches `startId`, visiting exactly the
non-start nodes `l` (most recent first). -/
inductive Chain (cf : List (Nat × Came)) (startId : Nat) :
    Nat → List Nat → Prop where
  | base : Chain cf startId startId []
  | step (n : Nat) (c : Came) (l : List Nat) : n ≠ startId →
      mapGet cf n = some c → Chain cf startId c.prev l →
      Chain cf startId n (n :: l)

/-- A walk in the snapshot's adjacency structure from `a` to `b` that uses no
adjacency option flagged as a staircase. -/
inductive StairFreeWalk (snap : Snapshot) : Nat → Nat → Prop where
  | refl (a : Nat) : StairFreeWalk snap a a
  | step (a : Nat) (e : EdgeInfo) (b : Nat) : e ∈ neighborsOf snap a →
      e.is_staircase = false → StairFreeWalk snap e.toId b →
      StairFreeWalk snap a b

/-- All active edges carry non-negative distances (the data model invariant
`distance ≥ 0`). -/
def SnapNonneg (s : Snapshot) : Prop :=
  ∀ e ∈ s.activeEdges, 0 ≤ e.distance

/-- Referential integrity of a snapshot: every active edge's endpoints are
cached nodes. -/
def SnapClosed (s : Snapshot) : Prop :=
  ∀ e ∈ s.activeEdges,
    hasNode s e.from_node_id = true ∧ hasNode s e.to_node_id = true

/-- All stored edges carry non-negative distances. -/
def DbNonneg (db : Database) : Prop :=
  ∀ e ∈ db.edges, 0 ≤ e.distance

/-- Referential integrity of the data layer: every active edge references
existing nodes. -/
def DbClosed (db : Database) : Prop :=
  ∀ e ∈ db.edges, e.is_active = true →
    (∃ n ∈ db.nodes, n.node_id = e.from_node_id) ∧
    (∃ n ∈ db.nodes, n.node_id = e.to_node_id)

/-- The A* loop invariant.  `cameFrom` entries record genuine adjacency
options pointing at their key (stair-free when stairs are avoided); recorded
costs are non-negative, the recorded cost of a predecessor plus the edge cost
never exceeds the cost of the node itself; the start keeps cost `0` and no
predecessor; every node with a recorded cost is connected to the start by the
predecessor chain; and every heap entry's value has a recorded cost. -/
structure SearchInv (snap : Snapshot) (avoid : Bool) (startId : Nat)
    (s : SearchState) : Prop where
  came_edge : ∀ n c, mapGet s.cameFrom n = some c →
    c.edge ∈ neighborsOf snap c.prev ∧ c.edge.toId = n ∧
      (avoid = true → c.edge.is_staircase = false)
  came_g : ∀ n c, mapGet s.cameFrom n = some c →
    ∃ gp gn, mapGet s.gScore c.prev = some gp ∧ mapGet s.gScore n = some gn ∧
      gp + c.edge.distance ≤ gn
  g_nonneg : ∀ n g, mapGet s.gScore n = some g → 0 ≤ g
  g_start : mapGet s.gScore startId = some 0
  came_start : mapGet s.cameFrom startId = none
  g_chain : ∀ n g, mapGet s.gScore n = some g →
    ∃ l, Chain s.cameFrom startId n l
  heap_g : ∀ x ∈ s.heap.heap, (mapGet s.gScore x.value).isSome = true

/-! ## Theorems -/

/-- Claim C6: the compass-word function maps an angle to the 16-point rose
name at index `floor((angle + 11.25) / 22.5) mod 16` in fixed clockwise order
starting at North; in particular angle 0 maps to North, 359.9 wraps to North,
90 to East, 180 to South and 270 to West. -/
theorem c6_compass_rose :
    (∀ a : ℚ, 0 ≤ a →
      compassToDirection a =
        compassDirections[(⌊(a + 11.25) / 22.5⌋ % 16).toNat]?) ∧
    compassToDirection 0 = some ("North") ∧
    compassToDirection 359.9 = some ("North") ∧
    compassToDirection 90 = some ("East") ∧
    compassToDirection 180 = some ("South") ∧
    compassToDirection 270 = some ("West") := by
  refine ⟨fun a ha => ?_, by decide, by decide, by decide, by decide, by decide⟩
  have hq : (0 : ℚ) ≤ (a + 11.25) / 22.5 := by positivity
  have hi : (0 : ℤ) ≤ ⌊(a + 11.25) / 22.5⌋ := Int.floor_nonneg.mpr hq
  have ht : Int.tmod ⌊(a + 11.25) / 22.5⌋ 16 = ⌊(a + 11.25) / 22.5⌋ % 16 := by
    rw [Int.tmod_eq_emod hi (by norm_num)]
  have hnn : (0 : ℤ) ≤ ⌊(a + 11.25) / 22.5⌋ % 16 :=
    Int.emod_nonneg _ (by norm_num)
  simp only [compassToDirection, ht]
  rw [if_neg (by omega)]

/-- Claim C6 witness: the general formula applied at the concrete angle 90. -/
theorem c6_compass_rose_witness :
    compassToDirection 90 =
      compassDirections[(⌊((90 : ℚ) + 11.25) / 22.5⌋ % 16).toNat]? :=
  c6_compass_rose.1 90 (by norm_num)

/-- Claim C7: on the concrete graph `A(floor 0), B(floor 0), C(floor 1)` with
active edges `A→B (10, 90°)` and `B→C (5, 0°, staircase)`, `findPath(A, C,
false)` returns the path `[A, B, C]` with `total_distance = 15`, and
`findPath(A, C, true)` returns the no-path error. -/
theorem c7_concrete_scenario :
    (PathFinder.init.findPath dbABC ("A") ("C") false).1.codes? =
        some [("A"), ("B"), ("C")] ∧
    (PathFinder.init.findPath dbABC ("A") ("C") false).1.total? = some 15 ∧
    (PathFinder.init.findPath dbABC ("A") ("C") true).1 =
        FindOutcome.err RouteError.noPathFound := by
  refine ⟨by decide, by decide, by decide⟩

/-- Claim C2 counterexample: on `dbOverestimate` the goal is reachable and
`findPath` succeeds, but the returned `total_distance` (15) is not the sum of
the steps' `distance_from_prev` fields (8), not even up to two-decimal
rounding — the floor heuristic overestimates, the cheaper route to an already
finalized node updates its recorded cost after its successor's predecessor
link was written, and the recorded goal cost no longer matches the
reconstructed steps. -/
theorem c2_total_distance_counterexample :
    (PathFinder.init.findPath dbOverestimate ("S") ("G") false).1.isOk =
        true ∧
    (PathFinder.init.findPath dbOverestimate ("S") ("G") false).1.total? =
        some 15 ∧
    (PathFinder.init.findPath dbOverestimate ("S") ("G") false).1.stepSum? =
        some 8 ∧
    round2 8 ≠ (15 : ℚ) := by
  refine ⟨by decide, by decide, by decide, by decide⟩

/-- After any call, the engine holds the snapshot the call used: the old one
when it was already built, a freshly built one otherwise. -/
theorem findPath_engine_state (pf : PathFinder) (db : Database)
    (startCode goalCode : String) (avoid : Bool) :
    (pf.findPath db startCode goalCode avoid).2 =
      { built := true, snap := if pf.built then pf.snap else Snapshot.build db } := by
  unfold PathFinder.findPath
  dsimp only
  repeat' split
  all_goals try rfl

/-- Claim C9: after `reset`, the next `findPath` call behaves exactly as a
freshly constructed engine over the data layer's current contents — the
snapshot is rebuilt from the current database, so every node/edge change made
before the query is reflected and nothing of the old snapshot leaks. -/
theorem c9_reset_rebuilds_from_current_data :
    ∀ (pf : PathFinder) (db : Database) (startCode goalCode : String)
      (avoid : Bool),
      (pf.reset).findPath db startCode goalCode avoid =
        PathFinder.init.findPath db startCode goalCode avoid ∧
      ((pf.reset).findPath db startCode goalCode avoid).2 =
        { built := true, snap := Snapshot.build db } := by
  intro pf db startCode goalCode avoid
  exact ⟨rfl, findPath_engine_state PathFinder.init db startCode goalCode avoid⟩

/-- Claim C3: for every stored active edge `(A→B, d, θ, s)` whose endpoints
are nodes of the snapshot, the adjacency list of `A` contains the forward
option `(B, d, θ, s)` and the adjacency list of `B` contains the reverse
option `(A, d, (θ+180) mod 360, s)`; both directions carry the identical
distance `d`. -/
theorem c3_reverse_edge_always_exists :
    ∀ (db : Database) (e : Edge), e ∈ db.edges → e.is_active = true →
      hasNode (Snapshot.build db) e.from_node_id = true →
      hasNode (Snapshot.build db) e.to_node_id = true →
      forwardInfo e ∈ neighborsOf (Snapshot.build db) e.from_node_id ∧
      reverseInfo e ∈ neighborsOf (Snapshot.build db) e.to_node_id ∧
      (forwardInfo e).toId = e.to_node_id ∧
      (reverseInfo e).toId = e.from_node_id ∧
      (forwardInfo e).distance = e.distance ∧
      (reverseInfo e).distance = e.distance ∧
      (forwardInfo e).compass_angle = e.compass_angle ∧
      (forwardInfo e).is_staircase = e.is_staircase ∧
      (reverseInfo e).is_staircase = e.is_staircase ∧
      (0 ≤ e.compass_angle →
        (reverseInfo e).compass_angle =
          (e.compass_angle + 180) - 360 * (⌊(e.compass_angle + 180) / 360⌋ : ℤ)) := by
  intro db e he hact hfrom hto
  have hmem : e ∈ (Snapshot.build db).activeEdges := by
    have : e ∈ db.edges.filter (fun e => e.is_active) :=
      List.mem_filter.mpr ⟨he, hact⟩
    simpa [Snapshot.build] using this
  constructor
  · rw [neighborsOf, if_pos hfrom]
    refine List.mem_flatten.mpr ⟨edgeOptionsFor e.from_node_id e,
      List.mem_map_of_mem _ hmem, ?_⟩
    simp [edgeOptionsFor]
  constructor
  · rw [neighborsOf, if_pos hto]
    refine List.mem_flatten.mpr ⟨edgeOptionsFor e.to_node_id e,
      List.mem_map_of_mem _ hmem, ?_⟩
    simp [edgeOptionsFor]
  refine ⟨rfl, rfl, rfl, rfl, rfl, rfl, rfl, fun hθ => ?_⟩
  have h0 : (0 : ℚ) ≤ (e.compass_angle + 180) / 360 := by positivity
  simp only [reverseInfo, jsMod, jsTrunc, if_pos h0]

/-- Claim C3 witness: the invariant applied to the concrete edge `A→B` of the
scenario database. -/
theorem c3_reverse_edge_always_exists_witness :
    forwardInfo (mkEdge 1 1 2 10 90 false) ∈
        neighborsOf (Snapshot.build dbABC) 1 ∧
    reverseInfo (mkEdge 1 1 2 10 90 false) ∈
        neighborsOf (Snapshot.build dbABC) 2 ∧
    (reverseInfo (mkEdge 1 1 2 10 90 false)).compass_angle = 270 := by
  have h := c3_reverse_edge_always_exists dbABC (mkEdge 1 1 2 10 90 false)
    (by decide) rfl (by decide) (by decide)
  exact ⟨h.1, h.2.1, by decide⟩

/-! ### Heap lemmas -/

theorem swapAt_length (l : List HeapEntry) (i j : Nat) :
    (swapAt l i j).length = l.length := by
  unfold swapAt
  cases hi : l[i]? <;> cases hj : l[j]? <;> simp

theorem set_getElem?_self {l : List HeapEntry} {i : Nat} {a : HeapEntry}
    (h : l[i]? = some a) : l.set i a = l := by
  refine List.ext_getElem? fun n => ?_
  rw [List.getElem?_set]
  by_cases hin : i = n
  · subst hin
    rw [if_pos rfl, if_pos (List.getElem?_eq_some.mp h).1, h]
  · rw [if_neg hin]

theorem swapAt_getElem? {l : List HeapEntry} {i j : Nat} {a b : HeapEntry}
    (hi : l[i]? = some a) (hj : l[j]? = some b) (k : Nat) :
    (swapAt l i j)[k]? =
      if j = k then some a else if i = k then some b else l[k]? := by
  have hil : i < l.length := (List.getElem?_eq_some.mp hi).1
  have hjl : j < l.length := (List.getElem?_eq_some.mp hj).1
  unfold swapAt
  rw [hi, hj]
  rw [List.getElem?_set, List.getElem?_set, List.length_set]
  by_cases h1 : j = k <;> by_cases h2 : i = k <;> simp [h1, h2, hil, hjl] <;>
    omega

theorem swap_perm_lt {l : List HeapEntry} {i j : Nat} {a b : HeapEntry}
    (hij : i < j) (hi : l[i]? = some a) (hj : l[j]? = some b) :
    ((l.set i b).set j a).Perm l := by
  have hil : i < l.length := (List.getElem?_eq_some.mp hi).1
  have hjl : j < l.length := (List.getElem?_eq_some.mp hj).1
  have hia : l[i] = a := (List.getElem?_eq_some.mp hi).2
  obtain ⟨l₁, l₂, hdecomp, hlen1, hset⟩ := @List.exists_of_set _ i b l hil
  simp only [hia] at hdecomp hset
  rw [hset, List.set_append, if_neg (by omega)]
  have hm : j - l₁.length = (j - l₁.length - 1) + 1 := by omega
  rw [hm, List.set_cons_succ]
  have hml : j - l₁.length - 1 < l₂.length := by
    have := hdecomp ▸ hjl
    simp only [List.length_append, List.length_cons] at this
    omega
  have hl2b : l₂[j - l₁.length - 1] = b := by
    have hstep : l[j]? = l₂[j - l₁.length - 1]? := by
      conv =>
        lhs
        rw [hdecomp]
      rw [List.getElem?_append, if_neg (by omega), List.getElem?_cons,
        if_neg (by omega)]
    rw [hj] at hstep
    exact (List.getElem?_eq_some.mp hstep.symm).2
  obtain ⟨m₁, m₂, hdec2, hlen2, hset2⟩ :=
    @List.exists_of_set _ (j - l₁.length - 1) a l₂ hml
  simp only [hl2b] at hdec2 hset2
  rw [hset2]
  rw [hdecomp, hdec2]
  refine List.Perm.append_left l₁ ?_
  have p1 : (b :: (m₁ ++ a :: m₂)).Perm (b :: a :: (m₁ ++ m₂)) :=
    List.Perm.cons b List.perm_middle
  have p2 : (b :: a :: (m₁ ++ m₂)).Perm (a :: b :: (m₁ ++ m₂)) :=
    List.Perm.swap a b (m₁ ++ m₂)
  have p3 : (a :: b :: (m₁ ++ m₂)).Perm (a :: (m₁ ++ b :: m₂)) :=
    List.Perm.cons a List.perm_middle.symm
  exact (p1.trans p2).trans p3

theorem swapAt_perm (l : List HeapEntry) (i j : Nat) :
    (swapAt l i j).Perm l := by
  unfold swapAt
  cases hi : l[i]? with
  | none => exact List.Perm.refl l
  | some a =>
    cases hj : l[j]? with
    | none => exact List.Perm.refl l
    | some b =>
      show ((l.set i b).set j a).Perm l
      rcases Nat.lt_trichotomy i j with h | h | h
      · exact swap_perm_lt h hi hj
      · subst h
        have hab : a = b := by rw [hi] at hj; exact Option.some.inj hj
        subst hab
        rw [List.set_set, set_getElem?_self hi]
      · have hp := swap_perm_lt h hj hi
        rw [List.set_comm a b l (Nat.ne_of_lt h)] at hp
        exact hp

theorem heapLe_none_right {l : List HeapEntry} {j : Nat} (i : Nat)
    (h : l[j]? = none) : heapLe l i j := by
  intro a b _ hb
  rw [h] at hb
  cases hb

theorem bubbleUpGo_perm : ∀ (fuel : Nat) (l : List HeapEntry) (i : Nat),
    (bubbleUpGo fuel l i).Perm l := by
  intro fuel
  induction fuel with
  | zero =>
    intro l i
    cases i <;> exact List.Perm.refl l
  | succ fuel ih =>
    intro l i
    cases i with
    | zero => exact List.Perm.refl l
    | succ i' =>
      simp only [bubbleUpGo]
      cases hp : l[i' / 2]? with
      | none => exact List.Perm.refl l
      | some pe =>
        cases hq : l[i' + 1]? with
        | none => exact List.Perm.refl l
        | some ie =>
          show (if pe.priority ≤ ie.priority then l
            else bubbleUpGo fuel (swapAt l (i' / 2) (i' + 1)) (i' / 2)).Perm l
          by_cases hle : pe.priority ≤ ie.priority
          · rw [if_pos hle]
          · rw [if_neg hle]
            exact (ih _ _).trans (swapAt_perm l (i' / 2) (i' + 1))

theorem upInv_swap {l : List HeapEntry} {i' : Nat} {pe ie : HeapEntry}
    (hp : l[i' / 2]? = some pe) (hq : l[i' + 1]? = some ie)
    (hlt : ¬ pe.priority ≤ ie.priority) (hinv : UpInv l (i' + 1)) :
    UpInv (swapAt l (i' / 2) (i' + 1)) (i' / 2) := by
  have hget := swapAt_getElem? hp hq
  have hpi : i' / 2 < i' + 1 := by omega
  have hile : ie.priority ≤ pe.priority := le_of_lt (lt_of_not_le hlt)
  constructor
  · intro j hj0 hjp a b ha hb
    rw [hget] at ha hb
    by_cases hji : j = i' + 1
    · subst hji
      rw [if_pos rfl] at hb
      have hpj : (i' + 1 - 1) / 2 = i' / 2 := rfl
      rw [hpj] at ha
      rw [if_neg (by omega), if_pos rfl] at ha
      cases ha
      cases hb
      exact hile
    · rw [if_neg (by omega)] at hb
      by_cases hpj1 : (j - 1) / 2 = i' + 1
      · rw [hpj1, if_pos rfl] at ha
        cases ha
        by_cases hjp2 : i' / 2 = j
        · omega
        · rw [if_neg hjp2] at hb
          exact hinv.2 (by omega) j hpj1 pe b hp hb
      · by_cases hpj2 : (j - 1) / 2 = i' / 2
        · rw [hpj2, if_neg (by omega), if_pos rfl] at ha
          cases ha
          by_cases hjp2 : i' / 2 = j
          · exact absurd hjp2.symm hjp
          · rw [if_neg hjp2] at hb
            have h1 := hinv.1 j hj0 hji pe b
            rw [hpj2] at h1
            exact le_trans hile (h1 hp hb)
        · rw [if_neg (by omega), if_neg (by omega)] at ha
          by_cases hjp2 : i' / 2 = j
          · exact absurd hjp2.symm hjp
          · rw [if_neg hjp2] at hb
            exact hinv.1 j hj0 hji a b ha hb
  · intro hp0 j hpj a b ha hb
    have hgp : (i' / 2 - 1) / 2 < i' / 2 := by omega
    rw [hget, if_neg (by omega), if_neg (by omega)] at ha
    by_cases hji : j = i' + 1
    · subst hji
      rw [hget, if_pos rfl] at hb
      cases hb
      exact hinv.1 (i' / 2) hp0 (by omega) a pe ha hp
    · have hjgt : i' / 2 < j := by omega
      rw [hget, if_neg (by omega), if_neg (by omega)] at hb
      have h1 := hinv.1 (i' / 2) hp0 (by omega) a pe ha hp
      have h2 := hinv.1 j (by omega) hji pe b
      rw [hpj] at h2
      exact le_trans h1 (h2 hp hb)

theorem bubbleUpGo_isHeap : ∀ (fuel : Nat) (l : List HeapEntry) (i : Nat),
    i < fuel → UpInv l i → IsHeap (bubbleUpGo fuel l i) := by
  intro fuel
  induction fuel with
  | zero => intro l i h; omega
  | succ fuel ih =>
    intro l i hif hinv
    cases i with
    | zero =>
      intro j hj
      exact hinv.1 j hj (by omega)
    | succ i' =>
      simp only [bubbleUpGo]
      cases hp : l[i' / 2]? with
      | none =>
        have hnone : l[i' + 1]? = none := by
          have hlen : l.length ≤ i' / 2 := by
            by_contra hc
            rw [List.getElem?_eq_getElem (by omega)] at hp
            cases hp
          exact List.getElem?_eq_none (by omega)
        intro j hj
        by_cases hji : j = i' + 1
        · subst hji; exact heapLe_none_right _ hnone
        · exact hinv.1 j hj hji
      | some pe =>
        cases hq : l[i' + 1]? with
        | none =>
          intro j hj
          by_cases hji : j = i' + 1
          · subst hji; exact heapLe_none_right _ hq
          · exact hinv.1 j hj hji
        | some ie =>
          show IsHeap (if pe.priority ≤ ie.priority then l
            else bubbleUpGo fuel (swapAt l (i' / 2) (i' + 1)) (i' / 2))
          by_cases hle : pe.priority ≤ ie.priority
          · rw [if_pos hle]
            intro j hj
            by_cases hji : j = i' + 1
            · subst hji
              intro a b ha hb
              have hpj : (i' + 1 - 1) / 2 = i' / 2 := rfl
              rw [hpj, hp] at ha
              rw [hq] at hb
              cases ha
              cases hb
              exact hle
            · exact hinv.1 j hj hji
          · rw [if_neg hle]
            exact ih _ _ (by omega) (upInv_swap hp hq hle hinv)

theorem ltAt_eq_true {l : List HeapEntry} {i j : Nat}
    (h : ltAt l i j = true) :
    ∃ a b, l[i]? = some a ∧ l[j]? = some b ∧ a.priority < b.priority := by
  unfold ltAt at h
  cases hi : l[i]? with
  | none => rw [hi] at h; cases h
  | some a =>
    cases hj : l[j]? with
    | none => rw [hi, hj] at h; cases h
    | some b =>
      rw [hi, hj] at h
      exact ⟨a, b, rfl, rfl, of_decide_eq_true h⟩

theorem ltAt_false_le {l : List HeapEntry} {i j : Nat} {a b : HeapEntry}
    (h : ¬ ltAt l i j = true) (ha : l[i]? = some a) (hb : l[j]? = some b) :
    b.priority ≤ a.priority := by
  unfold ltAt at h
  rw [ha, hb] at h
  exact le_of_not_lt (fun hc => h (decide_eq_true hc))

theorem bubbleDownGo_perm : ∀ (fuel : Nat) (l : List HeapEntry) (i : Nat),
    (bubbleDownGo fuel l i).Perm l := by
  intro fuel
  induction fuel with
  | zero => intro l i; exact List.Perm.refl l
  | succ fuel ih =>
    intro l i
    simp only [bubbleDownGo]
    by_cases h2 : (if ltAt l (2 * i + 2) (if ltAt l (2 * i + 1) i
        then 2 * i + 1 else i) then 2 * i + 2
        else if ltAt l (2 * i + 1) i then 2 * i + 1 else i) = i
    · rw [if_pos h2]
    · rw [if_neg h2]
      exact (ih _ _).trans (swapAt_perm _ _ _)

theorem downInv_swap {l : List HeapEntry} {i s2 : Nat} {iv sv : HeapEntry}
    (hs2 : s2 = 2 * i + 1 ∨ s2 = 2 * i + 2)
    (hi : l[i]? = some iv) (hs : l[s2]? = some sv)
    (hlt : sv.priority < iv.priority)
    (hmin : ∀ c, (c = 2 * i + 1 ∨ c = 2 * i + 2) →
      ∀ ce, l[c]? = some ce → sv.priority ≤ ce.priority)
    (hinv : DownInv l i) :
    DownInv (swapAt l s2 i) s2 := by
  have hget := swapAt_getElem? hs hi
  have hs2i : (s2 - 1) / 2 = i := by omega
  have his2 : i < s2 := by omega
  constructor
  · intro j hj0 hpj a b ha hb
    rw [hget] at ha hb
    by_cases hji : j = i
    · subst hji
      rw [if_pos rfl] at hb
      cases hb
      rw [if_neg (by omega), if_neg (by omega)] at ha
      have h2 := hinv.2 (by omega) s2 hs2i a sv ha hs
      exact h2
    · by_cases hjs : j = s2
      · subst hjs
        rw [if_neg (by omega), if_pos rfl] at hb
        cases hb
        rw [hs2i, if_pos rfl] at ha
        cases ha
        exact le_of_lt hlt
      · rw [if_neg (by omega), if_neg (by omega)] at hb
        by_cases hpi : (j - 1) / 2 = i
        · rw [hpi, if_pos rfl] at ha
          cases ha
          exact hmin j (by omega) b hb
        · rw [if_neg (by omega), if_neg (by omega)] at ha
          exact hinv.1 j hj0 hpi a b ha hb
  · intro _ j hpj a b ha hb
    rw [hget, hs2i, if_pos rfl] at ha
    cases ha
    have hjgt : s2 < j := by omega
    rw [hget, if_neg (by omega), if_neg (by omega)] at hb
    have h1 := hinv.1 j (by omega) (by omega)
    rw [hpj] at h1
    exact h1 sv b hs hb

theorem bubbleDownGo_isHeap : ∀ (fuel : Nat) (l : List HeapEntry) (i : Nat),
    l.length ≤ fuel + i → DownInv l i → IsHeap (bubbleDownGo fuel l i) := by
  intro fuel
  induction fuel with
  | zero =>
    intro l i hlen hinv
    show IsHeap l
    intro j hj0
    by_cases hpj : (j - 1) / 2 = i
    · exact heapLe_none_right _ (List.getElem?_eq_none (by omega))
    · exact hinv.1 j hj0 hpj
  | succ fuel ih =>
    intro l i hlen hinv
    simp only [bubbleDownGo]
    by_cases hltL : ltAt l (2 * i + 1) i = true
    · rw [if_pos hltL]
      by_cases hltR : ltAt l (2 * i + 2) (2 * i + 1) = true
      · rw [if_pos hltR, if_neg (by omega)]
        obtain ⟨le1, iv, hL, hiv, hlt1⟩ := ltAt_eq_true hltL
        obtain ⟨re, le2, hR, hL2, hlt2⟩ := ltAt_eq_true hltR
        have hle : le2 = le1 := by
          rw [hL] at hL2
          exact (Option.some.inj hL2).symm
        subst hle
        refine ih _ _ (by rw [swapAt_length]; omega) ?_
        refine downInv_swap (Or.inr rfl) hiv hR (lt_trans hlt2 hlt1) ?_ hinv
        intro c hc ce hce
        rcases hc with hc | hc
        · subst hc
          rw [hL] at hce
          cases hce
          exact le_of_lt hlt2
        · subst hc
          rw [hR] at hce
          cases hce
          exact le_refl _
      · rw [if_neg hltR, if_neg (by omega)]
        obtain ⟨le1, iv, hL, hiv, hlt1⟩ := ltAt_eq_true hltL
        refine ih _ _ (by rw [swapAt_length]; omega) ?_
        refine downInv_swap (Or.inl rfl) hiv hL hlt1 ?_ hinv
        intro c hc ce hce
        rcases hc with hc | hc
        · subst hc
          rw [hL] at hce
          cases hce
          exact le_refl _
        · subst hc
          exact ltAt_false_le hltR hce hL
    · rw [if_neg hltL]
      by_cases hltR : ltAt l (2 * i + 2) i = true
      · rw [if_pos hltR, if_neg (by omega)]
        obtain ⟨re, iv, hR, hiv, hlt1⟩ := ltAt_eq_true hltR
        refine ih _ _ (by rw [swapAt_length]; omega) ?_
        refine downInv_swap (Or.inr rfl) hiv hR hlt1 ?_ hinv
        intro c hc ce hce
        rcases hc with hc | hc
        · subst hc
          exact le_trans (le_of_lt hlt1) (ltAt_false_le hltL hce hiv)
        · subst hc
          rw [hR] at hce
          cases hce
          exact le_refl _
      · rw [if_neg hltR, if_pos rfl]
        intro j hj0
        by_cases hpj : (j - 1) / 2 = i
        · intro a b ha hb
          rw [hpj] at ha
          have hj12 : j = 2 * i + 1 ∨ j = 2 * i + 2 := by omega
          rcases hj12 with hj | hj
          · subst hj
            exact ltAt_false_le hltL hb ha
          · subst hj
            exact ltAt_false_le hltR hb ha
        · exact hinv.1 j hj0 hpj

theorem isHeap_root_min {l : List HeapEntry} (hh : IsHeap l) :
    ∀ (j : Nat) (a b : HeapEntry), l[0]? = some a → l[j]? = some b →
      a.priority ≤ b.priority := by
  intro j
  induction j using Nat.strong_induction_on with
  | _ j ih =>
    intro a b ha hb
    cases j with
    | zero => rw [ha] at hb; cases hb; exact le_refl _
    | succ j' =>
      have hjl : j' + 1 < l.length := (List.getElem?_eq_some.mp hb).1
      have hpl : (j' + 1 - 1) / 2 < l.length := by omega
      have hp := List.getElem?_eq_getElem hpl
      have h1 := ih ((j' + 1 - 1) / 2) (by omega) a _ ha hp
      exact le_trans h1 (hh (j' + 1) (by omega) _ b hp hb)

theorem push_isHeap {h : MinHeap} (hh : IsHeap h.heap) (p : ℚ) (v : Nat) :
    IsHeap (h.push p v).heap := by
  unfold MinHeap.push
  dsimp only
  have hlen : (h.heap ++ [({ priority := p, value := v } : HeapEntry)]).length
      - 1 = h.heap.length := by
    simp
  rw [hlen]
  apply bubbleUpGo_isHeap
  · simp
  · constructor
    · intro j hj0 hjne a b ha hb
      by_cases hjl : j < h.heap.length
      · rw [List.getElem?_append, if_pos (by omega)] at ha
        rw [List.getElem?_append, if_pos hjl] at hb
        exact hh j hj0 a b ha hb
      · rw [List.getElem?_eq_none (by
          simp only [List.length_append, List.length_singleton]
          omega)] at hb
        cases hb
    · intro hi0 j hpj a b ha hb
      rw [List.getElem?_eq_none (by
        simp only [List.length_append, List.length_singleton]
        omega)] at hb
      cases hb

theorem pop_spec {h : MinHeap} {e : HeapEntry} {h2 : MinHeap}
    (hpop : h.pop = some (e, h2)) :
    h.heap[0]? = some e ∧ h.heap.Perm (e :: h2.heap) ∧
      (IsHeap h.heap → IsHeap h2.heap) := by
  rcases h with ⟨l⟩
  cases l with
  | nil => exact absurd hpop (by simp [MinHeap.pop])
  | cons x t =>
    cases t with
    | nil =>
      simp only [MinHeap.pop] at hpop
      injection hpop with h1
      injection h1 with he hh2
      subst he
      subst hh2
      refine ⟨rfl, List.Perm.refl _, fun _ => ?_⟩
      intro j hj0 a b ha hb
      rw [List.getElem?_eq_none (by simp [MinHeap.empty])] at ha
      cases ha
    | cons y rest =>
      simp only [MinHeap.pop] at hpop
      injection hpop with h1
      injection h1 with he hh2
      subst he
      subst hh2
      set lst := (y :: rest).getLast (List.cons_ne_nil y rest) with hlst
      set l' := ((x :: y :: rest).dropLast).set 0 lst with hl'
      have hl'2 : l' = lst :: (y :: rest).dropLast := by
        rw [hl']
        rfl
      have hl'len : l'.length = (y :: rest).length := by
        rw [hl'2]
        simp [List.length_dropLast]
      have hperm : (x :: y :: rest).Perm
          (x :: bubbleDownGo (l'.length + 1) l' 0) := by
        refine List.Perm.cons x ?_
        refine List.Perm.trans ?_ ((bubbleDownGo_perm _ _ _).symm)
        have hyd : ((y :: rest).dropLast ++ [lst]) = y :: rest :=
          List.dropLast_append_getLast (List.cons_ne_nil y rest)
        rw [hl'2]
        have hstep := List.perm_append_singleton lst (y :: rest).dropLast
        rw [hyd] at hstep
        exact hstep
      refine ⟨rfl, hperm, fun hh => ?_⟩
      apply bubbleDownGo_isHeap
      · omega
      · constructor
        · intro j hj0 hpj a b ha hb
          have hgj : ∀ (k : Nat), 0 < k → ∀ (c : HeapEntry),
              l'[k]? = some c → (x :: y :: rest)[k]? = some c := by
            intro k hk0 c hc
            rw [hl', List.getElem?_set_ne (by omega),
              List.getElem?_dropLast] at hc
            by_cases hkb : k < (x :: y :: rest).length - 1
            · rw [if_pos hkb] at hc
              exact hc
            · rw [if_neg hkb] at hc
              cases hc
          exact hh j hj0 a b (hgj _ (by omega) a ha) (hgj _ hj0 b hb)
        · intro h00 _ _
          omega

theorem pop_none_iff (h : MinHeap) : h.pop = none ↔ h.heap = [] := by
  rcases h with ⟨l⟩
  cases l with
  | nil => simp [MinHeap.pop]
  | cons x t =>
    cases t with
    | nil => simp [MinHeap.pop]
    | cons y rest => simp [MinHeap.pop]

/-- Claim C8: starting from the empty queue, after any sequence of `push` and
`pop` operations the backing array satisfies the min-heap ordering, and every
`pop` on a non-empty queue removes exactly one entry — the returned one — whose
priority is less than or equal to the priority of every entry remaining in the
queue, while preserving the heap ordering. -/
theorem c8_priority_queue_min :
    ∀ (h : MinHeap), HeapReachable h →
      IsHeap h.heap ∧
      (∀ (e : HeapEntry) (h2 : MinHeap), h.pop = some (e, h2) →
        (∀ x ∈ h2.heap, e.priority ≤ x.priority) ∧
        h.heap.Perm (e :: h2.heap) ∧ IsHeap h2.heap) := by
  have key : ∀ h, HeapReachable h → IsHeap h.heap := by
    intro h hr
    induction hr with
    | empty =>
      intro j hj0 a b ha hb
      rw [List.getElem?_eq_none (by simp [MinHeap.empty])] at ha
      cases ha
    | push h p v hr ih => exact push_isHeap ih p v
    | pop h e h2 hr hpop ih => exact (pop_spec hpop).2.2 ih
  intro h hr
  refine ⟨key h hr, fun e h2 hpop => ?_⟩
  obtain ⟨hroot, hperm, hheap⟩ := pop_spec hpop
  refine ⟨?_, hperm, hheap (key h hr)⟩
  intro x hx
  have hxh : x ∈ h.heap := hperm.mem_iff.mpr (List.mem_cons_of_mem e hx)
  obtain ⟨n, hn, hxn⟩ := List.getElem_of_mem hxh
  exact isHeap_root_min (key h hr) n e x hroot
    (by rw [List.getElem?_eq_getElem hn, hxn])

/-- Claim C8 witness: on the concrete queue holding priorities 5 and 3, `pop`
returns the priority-3 entry and leaves the priority-5 one. -/
theorem c8_priority_queue_min_witness :
    (∀ x ∈ ({ heap := [{ priority := 5, value := 1 }] } : MinHeap).heap,
      (3 : ℚ) ≤ x.priority) ∧
    ((MinHeap.empty.push 5 1).push 3 2).heap.Perm
      [{ priority := 3, value := 2 }, { priority := 5, value := 1 }] := by
  have hr : HeapReachable ((MinHeap.empty.push 5 1).push 3 2) :=
    HeapReachable.push _ 3 2 (HeapReachable.push _ 5 1 HeapReachable.empty)
  have h := (c8_priority_queue_min _ hr).2
    { priority := 3, value := 2 } { heap := [{ priority := 5, value := 1 }] }
    (by decide)
  exact ⟨fun x hx => h.1 x hx, h.2.1⟩

/-! ### Search loop: map and fuel lemmas -/

theorem mapGet_set_self {α : Type} (m : List (Nat × α)) (k : Nat) (v : α) :
    mapGet (mapSet m k v) k = some v := by
  simp [mapGet, mapSet]

theorem mapGet_set_ne {α : Type} (m : List (Nat × α)) (k k' : Nat) (v : α)
    (h : k' ≠ k) : mapGet (mapSet m k v) k' = mapGet m k' := by
  simp [mapGet, mapSet, List.find?_cons, beq_eq_false_iff_ne.mpr (Ne.symm h)]

theorem push_length (h : MinHeap) (p : ℚ) (v : Nat) :
    (h.push p v).heap.length = h.heap.length + 1 := by
  unfold MinHeap.push
  dsimp only
  rw [(bubbleUpGo_perm _ _ _).length_eq]
  simp

theorem push_mem {h : MinHeap} {p : ℚ} {v : Nat} {x : HeapEntry} :
    x ∈ (h.push p v).heap ↔
      x ∈ h.heap ∨ x = { priority := p, value := v } := by
  unfold MinHeap.push
  dsimp only
  rw [List.Perm.mem_iff (bubbleUpGo_perm _ _ _)]
  simp

theorem pop_length {h : MinHeap} {e : HeapEntry} {h2 : MinHeap}
    (hpop : h.pop = some (e, h2)) :
    h.heap.length = h2.heap.length + 1 := by
  have h1 := (pop_spec hpop).2.1.length_eq
  simpa using h1

theorem pop_mem {h : MinHeap} {e : HeapEntry} {h2 : MinHeap}
    (hpop : h.pop = some (e, h2)) {x : HeapEntry} (hx : x ∈ h2.heap) :
    x ∈ h.heap :=
  ((pop_spec hpop).2.1.mem_iff).mpr (List.mem_cons_of_mem e hx)

theorem pop_root_mem {h : MinHeap} {e : HeapEntry} {h2 : MinHeap}
    (hpop : h.pop = some (e, h2)) : e ∈ h.heap :=
  ((pop_spec hpop).2.1.mem_iff).mpr (List.mem_cons_self e h2.heap)

theorem relaxEdge_visited (snap : Snapshot) (avoid : Bool)
    (goalId currentId : Nat) (s : SearchState) (e : EdgeInfo) :
    (relaxEdge snap avoid goalId currentId s e).visited = s.visited := by
  unfold relaxEdge
  dsimp only
  split
  · rfl
  · split
    · rfl
    · rfl

theorem relaxEdge_heap_length (snap : Snapshot) (avoid : Bool)
    (goalId currentId : Nat) (s : SearchState) (e : EdgeInfo) :
    (relaxEdge snap avoid goalId currentId s e).heap.heap.length ≤
      s.heap.heap.length + 1 := by
  unfold relaxEdge
  dsimp only
  split
  · omega
  · split
    · dsimp only
      rw [push_length]
    · omega

theorem foldl_relax_facts (snap : Snapshot) (avoid : Bool)
    (goalId currentId : Nat) :
    ∀ (es : List EdgeInfo) (s : SearchState),
      (es.foldl (relaxEdge snap avoid goalId currentId) s).heap.heap.length ≤
        s.heap.heap.length + es.length ∧
      (es.foldl (relaxEdge snap avoid goalId currentId) s).visited =
        s.visited := by
  intro es
  induction es with
  | nil => intro s; exact ⟨by simp, rfl⟩
  | cons e t ih =>
    intro s
    constructor
    · have h1 := (ih (relaxEdge snap avoid goalId currentId s e)).1
      have h2 := relaxEdge_heap_length snap avoid goalId currentId s e
      simp only [List.foldl_cons, List.length_cons]
      omega
    · have h1 := (ih (relaxEdge snap avoid goalId currentId s e)).2
      simp only [List.foldl_cons]
      rw [h1, relaxEdge_visited]

theorem sum_filter_map_le (w : Nat → Nat) (p₁ p₂ : Nat → Bool)
    (himp : ∀ x, p₁ x = true → p₂ x = true) :
    ∀ (l : List Nat),
      ((l.filter p₁).map w).sum ≤ ((l.filter p₂).map w).sum := by
  intro l
  induction l with
  | nil => simp
  | cons a t ih =>
    rw [List.filter_cons, List.filter_cons]
    by_cases h1 : p₁ a = true
    · rw [if_pos h1, if_pos (himp a h1)]
      simp only [List.map_cons, List.sum_cons]
      omega
    · rw [if_neg h1]
      by_cases h2 : p₂ a = true
      · rw [if_pos h2]
        simp only [List.map_cons, List.sum_cons]
        omega
      · rw [if_neg h2]
        exact ih

theorem sum_filter_extract (w : Nat → Nat) (vis : List Nat) (c : Nat) :
    ∀ (l : List Nat), l.Nodup → c ∈ l → vis.contains c = false →
      ((l.filter (fun id => ! (c :: vis).contains id)).map w).sum + w c =
      ((l.filter (fun id => ! vis.contains id)).map w).sum := by
  intro l
  induction l with
  | nil => intro _ hc; cases hc
  | cons a t ih =>
    intro hnodup hc hnv
    rw [List.filter_cons, List.filter_cons]
    by_cases hac : a = c
    · subst hac
      have hp1 : (! (a :: vis).contains a) = false := by
        simp [List.contains_cons]
      have hp2 : (! vis.contains a) = true := by rw [hnv]; rfl
      rw [if_neg (by rw [hp1]; exact Bool.false_ne_true), if_pos hp2]
      have hfilter : t.filter (fun id => ! (a :: vis).contains id) =
          t.filter (fun id => ! vis.contains id) := by
        refine List.filter_congr ?_
        intro x hx
        have hxa : (x == a) = false := by
          refine beq_eq_false_iff_ne.mpr ?_
          intro hxa
          subst hxa
          exact (List.nodup_cons.mp hnodup).1 hx
        rw [List.contains_cons, hxa, Bool.false_or]
      rw [hfilter]
      simp only [List.map_cons, List.sum_cons]
      omega
    · have hct : c ∈ t := by
        cases hc with
        | head => exact absurd rfl hac
        | tail _ h => exact h
      have hbeq : (a == c) = false := beq_eq_false_iff_ne.mpr hac
      have hpeq : (! (c :: vis).contains a) = (! vis.contains a) := by
        rw [List.contains_cons, hbeq, Bool.false_or]
      by_cases hpa : (! vis.contains a) = true
      · rw [if_pos (by rw [hpeq]; exact hpa), if_pos hpa]
        simp only [List.map_cons, List.sum_cons]
        have hih := ih (List.nodup_cons.mp hnodup).2 hct hnv
        omega
      · rw [if_neg (by rw [hpeq]; exact hpa), if_neg hpa]
        exact ih (List.nodup_cons.mp hnodup).2 hct hnv

theorem hasNode_iff_mem_nodeIds {s : Snapshot} {id : Nat} :
    hasNode s id = true ↔ id ∈ nodeIds s := by
  simp [hasNode, nodeIds, List.any_eq_true, List.mem_dedup, List.mem_map]

theorem neighborsOf_eq_nil {s : Snapshot} {id : Nat}
    (h : hasNode s id = false) : neighborsOf s id = [] := by
  simp [neighborsOf, h]

theorem searchLoop_isSome (snap : Snapshot) (avoid : Bool) (goalId : Nat) :
    ∀ (fuel : Nat) (s : SearchState), searchMeasure snap s < fuel →
      (searchLoop snap avoid goalId fuel s).isSome = true := by
  intro fuel
  induction fuel with
  | zero => intro s h; omega
  | succ fuel ih =>
    intro s hm
    simp only [searchLoop]
    cases hpop : s.heap.pop with
    | none => rfl
    | some pr =>
      obtain ⟨entry, heap'⟩ := pr
      have hlen : s.heap.heap.length = heap'.heap.length + 1 := pop_length hpop
      dsimp only
      by_cases hvis : s.visited.contains entry.value = true
      · rw [if_pos hvis]
        apply ih
        unfold searchMeasure at hm ⊢
        dsimp only
        omega
      · rw [if_neg hvis]
        by_cases hgoal : entry.value = goalId
        · rw [if_pos hgoal]
          rfl
        · rw [if_neg hgoal]
          apply ih
          have hfold := foldl_relax_facts snap avoid goalId entry.value
            (neighborsOf snap entry.value)
            { s with heap := heap', visited := entry.value :: s.visited }
          have hcontains : s.visited.contains entry.value = false :=
            Bool.eq_false_iff.mpr hvis
          by_cases hmem : entry.value ∈ nodeIds snap
          · have hsum := sum_filter_extract (nodeWeight snap) s.visited
              entry.value (nodeIds snap) (List.nodup_dedup _) hmem hcontains
            have hweight : nodeWeight snap entry.value =
                1 + (neighborsOf snap entry.value).length := rfl
            have h1 := hfold.1
            have h2 := hfold.2
            unfold searchMeasure at hm ⊢
            rw [h2]
            dsimp only at h1 hm ⊢
            omega
          · have hno : hasNode snap entry.value = false := by
              cases hhv : hasNode snap entry.value with
              | false => rfl
              | true => exact absurd (hasNode_iff_mem_nodeIds.mp hhv) hmem
            have hnbr : neighborsOf snap entry.value = [] :=
              neighborsOf_eq_nil hno
            have hle := sum_filter_map_le (nodeWeight snap)
              (fun id => ! (entry.value :: s.visited).contains id)
              (fun id => ! s.visited.contains id)
              (by
                intro x hx
                have hx2 : (! (entry.value :: s.visited).contains x) = true :=
                  hx
                rw [List.contains_cons, Bool.not_or, Bool.and_eq_true] at hx2
                exact hx2.2) (nodeIds snap)
            have h2 := hfold.2
            unfold searchMeasure at hm ⊢
            rw [h2, hnbr]
            simp only [List.foldl_nil]
            omega

/-- The fuel `findPath` supplies to the A* loop never runs out. -/
theorem searchOutcome_isSome (snap : Snapshot) (avoid : Bool)
    (startId goalId : Nat) :
    (searchOutcome snap avoid startId goalId).isSome = true := by
  unfold searchOutcome
  apply searchLoop_isSome
  unfold searchMeasure initState searchFuel
  dsimp only
  rw [push_length]
  have hfil : (nodeIds snap).filter
      (fun id => ! (([] : List Nat).contains id)) = nodeIds snap :=
    List.filter_eq_self.mpr (fun a _ => rfl)
  rw [hfil]
  simp only [MinHeap.empty, List.length_nil]
  omega

/-- When both codes resolve, the outcome of `findPath` is determined by the
search outcome and the reconstruction. -/
theorem findPath_eq_of_resolved {pf : PathFinder} {db : Database}
    {startCode goalCode : String} {avoid : Bool} {sn gn : Node}
    (hs : resolveCode db startCode = some sn)
    (hg : resolveCode db goalCode = some gn) :
    (pf.findPath db startCode goalCode avoid).1 =
      (match searchOutcome (if pf.built then pf.snap else Snapshot.build db)
          avoid sn.node_id gn.node_id with
       | none => FindOutcome.crash
       | some SearchResult.exhausted => FindOutcome.err RouteError.noPathFound
       | some (SearchResult.found s) =>
         match reconstructPath
             (if pf.built then pf.snap else Snapshot.build db)
             s.cameFrom sn.node_id gn.node_id
             ((mapGet s.gScore gn.node_id).getD 0) with
         | none => FindOutcome.crash
         | some r => FindOutcome.ok r) := by
  simp only [PathFinder.findPath, hs, hg]
  repeat' split
  all_goals try rfl

/-- The unresolved-code outcomes of `findPath`. -/
theorem findPath_eq_of_unresolved_start {pf : PathFinder} {db : Database}
    {startCode : String} (goalCode : String) (avoid : Bool)
    (hs : resolveCode db startCode = none) :
    (pf.findPath db startCode goalCode avoid).1 =
      FindOutcome.err (RouteError.startNotFound startCode) := by
  simp only [PathFinder.findPath, hs]

theorem findPath_eq_of_unresolved_goal {pf : PathFinder} {db : Database}
    {startCode goalCode : String} {sn : Node} (avoid : Bool)
    (hs : resolveCode db startCode = some sn)
    (hg : resolveCode db goalCode = none) :
    (pf.findPath db startCode goalCode avoid).1 =
      FindOutcome.err (RouteError.goalNotFound goalCode) := by
  simp only [PathFinder.findPath, hs, hg]

theorem round2_zero : round2 0 = 0 := by
  unfold round2 jsRound
  norm_num

theorem pop_push_empty (p : ℚ) (v : Nat) :
    (MinHeap.empty.push p v).pop =
      some ({ priority := p, value := v }, MinHeap.empty) := rfl

/-- On a self-query against a snapshot holding the node, the very first popped
entry is the goal and reconstruction emits the single start step. -/
theorem searchOutcome_self (snap : Snapshot) (avoid : Bool) (startId : Nat) :
    searchOutcome snap avoid startId startId =
      some (SearchResult.found
        { heap := MinHeap.empty, cameFrom := [], gScore := [(startId, 0)],
          fScore := [(startId, heuristic snap startId startId)],
          visited := [startId] }) := by
  unfold searchOutcome initState searchFuel
  have hk : (((nodeIds snap).map (nodeWeight snap)).sum + 2) =
      (((nodeIds snap).map (nodeWeight snap)).sum + 1) + 1 := rfl
  rw [hk]
  simp only [searchLoop, pop_push_empty]
  rfl

/-- Claim C5: for every node `X` whose code resolves and whose id is present
in the built snapshot, `findPath(X, X, avoidStairs)` succeeds with a path of
exactly one step — the node itself with `distance_from_prev = 0` and a null
compass angle — and `total_distance = 0`, for either value of `avoidStairs`. -/
theorem c5_self_query (pf : PathFinder) (db : Database) (code : String)
    (avoid : Bool) (n m : Node) (hres : resolveCode db code = some n)
    (hpf : pf.built = true) (hcache : cacheGet pf.snap n.node_id = some m) :
    (pf.findPath db code code avoid).1 = FindOutcome.ok
      { path := [mkStartStep m], total_distance := 0, num_nodes := 1,
        start := some (mkStartStep m), goal := some (mkStartStep m) } := by
  rw [findPath_eq_of_resolved hres hres, hpf]
  simp only [if_true]
  rw [searchOutcome_self]
  dsimp only
  have hget : mapGet [(n.node_id, (0 : ℚ))] n.node_id = some 0 := by
    simp [mapGet]
  rw [hget]
  simp only [Option.getD_some]
  unfold reconstructPath
  simp only [List.length_nil, Nat.zero_add, reconstructGo, if_pos rfl]
  rw [hcache]
  simp [round2_zero]

/-- Claim C5 witness: a self-query on node `B` of the concrete scenario. -/
theorem c5_self_query_witness :
    (({ built := true, snap := Snapshot.build dbABC } : PathFinder).findPath
      dbABC ("B") ("B") true).1 = FindOutcome.ok
      { path := [mkStartStep (mkNode 2 ("B") 0)], total_distance := 0,
        num_nodes := 1, start := some (mkStartStep (mkNode 2 ("B") 0)),
        goal := some (mkStartStep (mkNode 2 ("B") 0)) } :=
  c5_self_query _ dbABC ("B") true (mkNode 2 ("B") 0) (mkNode 2 ("B") 0)
    (by decide) rfl (by decide)

/-- `cacheGet` succeeds exactly on node ids present in the snapshot. -/
theorem cacheGet_isSome_iff {s : Snapshot} {id : Nat} :
    (cacheGet s id).isSome = true ↔ hasNode s id = true := by
  unfold cacheGet hasNode
  rw [List.find?_isSome, List.any_eq_true]
  constructor
  · rintro ⟨x, hx, hp⟩
    exact ⟨x, List.mem_reverse.mp hx, hp⟩
  · rintro ⟨x, hx, hp⟩
    exact ⟨x, List.mem_reverse.mpr hx, hp⟩

/-- Adjacency targets of a closed snapshot are nodes of the snapshot. -/
theorem snapClosed_target {snap : Snapshot} (hc : SnapClosed snap) {id : Nat}
    {e : EdgeInfo} (he : e ∈ neighborsOf snap id) :
    hasNode snap e.toId = true := by
  unfold neighborsOf at he
  by_cases hh : hasNode snap id = true
  · rw [if_pos hh] at he
    obtain ⟨l, hl, hel⟩ := List.mem_flatten.mp he
    obtain ⟨ed, hed, hmap⟩ := List.mem_map.mp hl
    subst hmap
    unfold edgeOptionsFor at hel
    rcases List.mem_append.mp hel with h1 | h1
    · by_cases hfe : ed.from_node_id = id
      · rw [if_pos hfe, List.mem_singleton] at h1
        subst h1
        exact (hc ed hed).2
      · rw [if_neg hfe] at h1
        cases h1
    · by_cases hte : ed.to_node_id = id
      · rw [if_pos hte, List.mem_singleton] at h1
        subst h1
        exact (hc ed hed).1
      · rw [if_neg hte] at h1
        cases h1
  · rw [if_neg hh] at he
    cases he

/-- A relaxation step only adds heap entries for adjacency targets. -/
theorem relaxEdge_heap_mem (snap : Snapshot) (avoid : Bool)
    (goalId currentId : Nat) (s : SearchState) (e : EdgeInfo)
    {x : HeapEntry} (hx : x ∈ (relaxEdge snap avoid goalId currentId s e).heap.heap) :
    x ∈ s.heap.heap ∨ x.value = e.toId := by
  unfold relaxEdge at hx
  dsimp only at hx
  split at hx
  · exact Or.inl hx
  · split at hx
    · dsimp only at hx
      rcases push_mem.mp hx with h | h
      · exact Or.inl h
      · right
        rw [h]
    · exact Or.inl hx

theorem foldl_relax_heap_mem (snap : Snapshot) (avoid : Bool)
    (goalId currentId : Nat) :
    ∀ (es : List EdgeInfo) (s : SearchState) (x : HeapEntry),
      x ∈ (es.foldl (relaxEdge snap avoid goalId currentId) s).heap.heap →
      x ∈ s.heap.heap ∨ ∃ e ∈ es, x.value = e.toId := by
  intro es
  induction es with
  | nil => intro s x hx; exact Or.inl hx
  | cons e t ih =>
    intro s x hx
    simp only [List.foldl_cons] at hx
    rcases ih _ x hx with h | ⟨e', he', hv⟩
    · rcases relaxEdge_heap_mem snap avoid goalId currentId s e h with h1 | h1
      · exact Or.inl h1
      · exact Or.inr ⟨e, List.mem_cons_self e t, h1⟩
    · exact Or.inr ⟨e', List.mem_cons_of_mem e he', hv⟩

/-- If the goal is neither the start nor a node of a closed snapshot, the A*
loop can never pop it: the search must exhaust the open set. -/
theorem searchLoop_no_goal {snap : Snapshot} (hc : SnapClosed snap)
    (avoid : Bool) (goalId startId : Nat)
    (hgoal : hasNode snap goalId = false) (hne : goalId ≠ startId) :
    ∀ (fuel : Nat) (s : SearchState),
      (∀ x ∈ s.heap.heap, x.value = startId ∨ hasNode snap x.value = true) →
      ∀ s', searchLoop snap avoid goalId fuel s ≠
        some (SearchResult.found s') := by
  intro fuel
  induction fuel with
  | zero => intro s _ s' h; cases h
  | succ fuel ih =>
    intro s hvals s' hres
    simp only [searchLoop] at hres
    cases hpop : s.heap.pop with
    | none =>
      rw [hpop] at hres
      cases hres
    | some pr =>
      obtain ⟨entry, heap'⟩ := pr
      rw [hpop] at hres
      dsimp only at hres
      by_cases hvis : s.visited.contains entry.value = true
      · rw [if_pos hvis] at hres
        refine ih _ ?_ s' hres
        intro x hx
        exact hvals x (pop_mem hpop hx)
      · rw [if_neg hvis] at hres
        by_cases hgl : entry.value = goalId
        · rcases hvals entry (pop_root_mem hpop) with h | h
          · exact hne (hgl ▸ h)
          · rw [hgl] at h
            rw [h] at hgoal
            cases hgoal
        · rw [if_neg hgl] at hres
          refine ih _ ?_ s' hres
          intro x hx
          rcases foldl_relax_heap_mem snap avoid goalId entry.value _ _ x hx
            with h1 | ⟨e, he, hv⟩
          · exact hvals x (pop_mem hpop h1)
          · right
            rw [hv]
            exact snapClosed_target hc he

theorem hasNode_of_cacheGet_none {s : Snapshot} {id : Nat}
    (h : cacheGet s id = none) : hasNode s id = false := by
  cases hhn : hasNode s id with
  | false => rfl
  | true =>
    have h2 := cacheGet_isSome_iff.mpr hhn
    rw [h] at h2
    cases h2

/-- Claim C10: node-code resolution always queries the data layer, never the
snapshot's node cache.  If a code resolves in the data layer to a node that is
absent from the (closed) built snapshot and the two resolved ids differ, the
call returns the no-path error — not a node-not-found error and not a path. -/
theorem c10_resolution_bypasses_snapshot :
    ∀ (pf : PathFinder) (db : Database) (startCode goalCode : String)
      (avoid : Bool) (ns ng : Node),
      pf.built = true → SnapClosed pf.snap →
      resolveCode db startCode = some ns →
      resolveCode db goalCode = some ng →
      ns.node_id ≠ ng.node_id →
      (cacheGet pf.snap ns.node_id = none ∨
        cacheGet pf.snap ng.node_id = none) →
      (pf.findPath db startCode goalCode avoid).1 =
        FindOutcome.err RouteError.noPathFound := by
  intro pf db startCode goalCode avoid ns ng hpf hc hs hg hne hmiss
  rw [findPath_eq_of_resolved hs hg, hpf]
  simp only [if_true]
  rcases hmiss with hmiss | hmiss
  · have hnsno : hasNode pf.snap ns.node_id = false :=
      hasNode_of_cacheGet_none hmiss
    have hso : searchOutcome pf.snap avoid ns.node_id ng.node_id =
        some SearchResult.exhausted := by
      unfold searchOutcome searchFuel initState
      have h2 : (((nodeIds pf.snap).map (nodeWeight pf.snap)).sum + 2) =
          (((nodeIds pf.snap).map (nodeWeight pf.snap)).sum + 1) + 1 := rfl
      rw [h2]
      simp only [searchLoop, pop_push_empty]
      rw [if_neg (by simp), if_neg hne, neighborsOf_eq_nil hnsno]
      simp only [List.foldl_nil]
      rfl
    rw [hso]
  · have hngno : hasNode pf.snap ng.node_id = false :=
      hasNode_of_cacheGet_none hmiss
    cases hres : searchOutcome pf.snap avoid ns.node_id ng.node_id with
    | none =>
      have hsome := searchOutcome_isSome pf.snap avoid ns.node_id ng.node_id
      rw [hres] at hsome
      cases hsome
    | some r =>
      cases r with
      | exhausted => rfl
      | found s' =>
        exfalso
        have hvals : ∀ x ∈ (initState pf.snap ns.node_id ng.node_id).heap.heap,
            x.value = ns.node_id ∨ hasNode pf.snap x.value = true := by
          intro x hx
          have hxl : x ∈ [({ priority := 0, value := ns.node_id } : HeapEntry)] :=
            hx
          rw [List.mem_singleton] at hxl
          subst hxl
          exact Or.inl rfl
        exact searchLoop_no_goal hc avoid ng.node_id ns.node_id hngno
          (Ne.symm hne) (searchFuel pf.snap)
          (initState pf.snap ns.node_id ng.node_id) hvals s' hres

/-- Claim C10 witness: a snapshot built before node `D` was added; both codes
resolve in the current database, but `D` is missing from the stale snapshot,
so the call reports no path. -/
theorem c10_resolution_bypasses_snapshot_witness :
    (({ built := true, snap := Snapshot.build dbABC } : PathFinder).findPath
      { nodes := [mkNode 1 ("A") 0, mkNode 2 ("B") 0, mkNode 3 ("C") 1,
                  mkNode 4 ("D") 0],
        edges := dbABC.edges } ("A") ("D") false).1 =
      FindOutcome.err RouteError.noPathFound := by
  refine c10_resolution_bypasses_snapshot _ _ ("A") ("D") false
    (mkNode 1 ("A") 0) (mkNode 4 ("D") 0) rfl ?_ (by decide) (by decide)
    (by decide) (Or.inr (by decide))
  intro e he
  refine ⟨?_, ?_⟩ <;> revert he <;> revert e <;> decide

/-! ### Predecessor chains -/

theorem neighborsOf_spec {snap : Snapshot} {id : Nat} {e : EdgeInfo}
    (he : e ∈ neighborsOf snap id) :
    ∃ ed ∈ snap.activeEdges,
      (e = forwardInfo ed ∧ ed.from_node_id = id) ∨
      (e = reverseInfo ed ∧ ed.to_node_id = id) := by
  unfold neighborsOf at he
  by_cases hh : hasNode snap id = true
  · rw [if_pos hh] at he
    obtain ⟨l, hl, hel⟩ := List.mem_flatten.mp he
    obtain ⟨ed, hed, hmap⟩ := List.mem_map.mp hl
    subst hmap
    unfold edgeOptionsFor at hel
    rcases List.mem_append.mp hel with h1 | h1
    · by_cases hfe : ed.from_node_id = id
      · rw [if_pos hfe, List.mem_singleton] at h1
        exact ⟨ed, hed, Or.inl ⟨h1, hfe⟩⟩
      · rw [if_neg hfe] at h1
        cases h1
    · by_cases hte : ed.to_node_id = id
      · rw [if_pos hte, List.mem_singleton] at h1
        exact ⟨ed, hed, Or.inr ⟨h1, hte⟩⟩
      · rw [if_neg hte] at h1
        cases h1
  · rw [if_neg hh] at he
    cases he

theorem neighborsOf_nonneg {snap : Snapshot} (hnn : SnapNonneg snap)
    {id : Nat} {e : EdgeInfo} (he : e ∈ neighborsOf snap id) :
    0 ≤ e.distance := by
  obtain ⟨ed, hed, hcase⟩ := neighborsOf_spec he
  rcases hcase with ⟨heq, _⟩ | ⟨heq, _⟩ <;> rw [heq] <;> exact hnn ed hed

theorem mapGet_singleton {α : Type} {k n : Nat} {v : α} {g : α}
    (h : mapGet [(k, v)] n = some g) : n = k ∧ g = v := by
  by_cases hkn : n = k
  · subst hkn
    have h2 : mapGet [(n, v)] n = some v := mapGet_set_self [] n v
    rw [h2] at h
    exact ⟨rfl, (Option.some.inj h).symm⟩
  · have h2 : mapGet [(k, v)] n = mapGet ([] : List (Nat × α)) n :=
      mapGet_set_ne [] k n v hkn
    rw [h2] at h
    cases h

/-- An update at a key not on the chain leaves the chain intact. -/
theorem chain_mapSet_not_mem {cf : List (Nat × Came)} {startId : Nat}
    {c0 : Came} (n : Nat) :
    ∀ {m : Nat} {l : List Nat}, Chain cf startId m l → n ∉ l →
      Chain (mapSet cf n c0) startId m l := by
  intro m l hch
  induction hch with
  | base => intro _; exact Chain.base
  | step m c l' hne hent hch ih =>
    intro hnl
    have hnm : n ≠ m := fun h => hnl (h ▸ List.mem_cons_self m l')
    refine Chain.step m c l' hne ?_ (ih (fun h => hnl (List.mem_cons_of_mem m h)))
    rw [mapGet_set_ne _ _ _ _ (Ne.symm hnm)]
    exact hent

theorem chain_unique {cf : List (Nat × Came)} {startId : Nat} :
    ∀ {m : Nat} {l₁ : List Nat}, Chain cf startId m l₁ →
      ∀ {l₂ : List Nat}, Chain cf startId m l₂ → l₁ = l₂ := by
  intro m l₁ h1
  induction h1 with
  | base =>
    intro l₂ h2
    cases h2 with
    | base => rfl
    | step m c l hne hent hch => exact absurd rfl hne
  | step m c l hne hent hch ih =>
    intro l₂ h2
    cases h2 with
    | base => exact absurd rfl hne
    | step _ c' l' hne' hent' hch' =>
      have hc : c = c' := by
        rw [hent] at hent'
        exact Option.some.inj hent'
      subst hc
      rw [ih hch']

theorem chain_mem_sub {cf : List (Nat × Came)} {startId : Nat} :
    ∀ {m : Nat} {l : List Nat}, Chain cf startId m l → ∀ {x : Nat}, x ∈ l →
      ∃ lx, Chain cf startId x lx ∧ lx.length ≤ l.length := by
  intro m l hch
  induction hch with
  | base => intro x hx; cases hx
  | step m c l' hne hent hch ih =>
    intro x hx
    rcases List.mem_cons.mp hx with h | h
    · subst h
      exact ⟨x :: l', Chain.step x c l' hne hent hch, le_refl _⟩
    · obtain ⟨lx, hlx, hlen⟩ := ih h
      exact ⟨lx, hlx, le_trans hlen (Nat.le_succ _)⟩

theorem chain_nodup {cf : List (Nat × Came)} {startId : Nat} :
    ∀ {m : Nat} {l : List Nat}, Chain cf startId m l → l.Nodup := by
  intro m l hch
  induction hch with
  | base => exact List.nodup_nil
  | step m c l' hne hent hch ih =>
    refine List.nodup_cons.mpr ⟨?_, ih⟩
    intro hmem
    obtain ⟨lm, hlm, hlen⟩ := chain_mem_sub hch hmem
    have heq : m :: l' = lm :=
      chain_unique (Chain.step m c l' hne hent hch) hlm
    have : l'.length + 1 ≤ l'.length := by
      have h1 : (m :: l').length = lm.length := by rw [heq]
      simp only [List.length_cons] at h1
      omega
    omega

theorem chain_mem_entry {cf : List (Nat × Came)} {startId : Nat} :
    ∀ {m : Nat} {l : List Nat}, Chain cf startId m l → ∀ {x : Nat}, x ∈ l →
      ∃ c, mapGet cf x = some c := by
  intro m l hch
  induction hch with
  | base => intro x hx; cases hx
  | step m c l' hne hent hch ih =>
    intro x hx
    rcases List.mem_cons.mp hx with h | h
    · subst h
      exact ⟨c, hent⟩
    · exact ih h

theorem chain_keys_le {cf : List (Nat × Came)} {startId : Nat} {m : Nat}
    {l : List Nat} (hch : Chain cf startId m l) : l.length ≤ cf.length := by
  have hnodup := chain_nodup hch
  have hsub : ∀ x ∈ l, x ∈ cf.map (fun p => p.1) := by
    intro x hx
    obtain ⟨c, hent⟩ := chain_mem_entry hch hx
    unfold mapGet at hent
    cases hf : cf.find? (fun p => p.1 == x) with
    | none => rw [hf] at hent; cases hent
    | some p =>
      refine List.mem_map.mpr ⟨p, List.mem_of_find?_eq_some hf, ?_⟩
      have hp := List.find?_some hf
      have hp2 : (p.1 == x) = true := hp
      exact eq_of_beq hp2
  calc l.length = l.toFinset.card := (List.toFinset_card_of_nodup hnodup).symm
    _ ≤ (cf.map (fun p => p.1)).toFinset.card := by
        refine Finset.card_le_card ?_
        intro x hx
        rw [List.mem_toFinset] at hx ⊢
        exact hsub x hx
    _ ≤ (cf.map (fun p => p.1)).length := by
        rw [List.card_toFinset]
        exact (cf.map (fun p => p.1)).dedup_sublist.length_le
    _ = cf.length := List.length_map _ _

theorem chain_split {cf : List (Nat × Came)} {startId : Nat} (n : Nat) :
    ∀ {m : Nat} {l : List Nat}, Chain cf startId m l → n ∈ l →
      ∃ l₁ l₂, l = l₁ ++ n :: l₂ ∧ Chain cf startId n (n :: l₂) ∧ n ∉ l₁ := by
  intro m l hch
  induction hch with
  | base => intro hx; cases hx
  | step m c l' hne hent hch ih =>
    intro hx
    rcases List.mem_cons.mp hx with h | h
    · refine ⟨[], l', by rw [h]; rfl, ?_, List.not_mem_nil n⟩
      rw [h]
      exact Chain.step m c l' hne hent hch
    · obtain ⟨l₁, l₂, heq, hchn, hnl₁⟩ := ih h
      by_cases hmn : n = m
      · refine ⟨[], l', by rw [hmn]; rfl, ?_, List.not_mem_nil n⟩
        rw [hmn]
        exact Chain.step m c l' hne hent hch
      · refine ⟨m :: l₁, l₂, by rw [heq]; rfl, hchn, ?_⟩
        intro hmem
        rcases List.mem_cons.mp hmem with h2 | h2
        · exact hmn h2
        · exact hnl₁ h2

theorem chain_graft {cf : List (Nat × Came)} {startId n : Nat} {c0 : Came}
    {ln : List Nat} (hn : Chain (mapSet cf n c0) startId n ln) :
    ∀ (l₁ : List Nat) {m : Nat} {l₂ : List Nat},
      Chain cf startId m (l₁ ++ n :: l₂) → n ∉ l₁ →
      Chain (mapSet cf n c0) startId m (l₁ ++ ln) := by
  intro l₁
  induction l₁ with
  | nil =>
    intro m l₂ hm _
    cases hm with
    | step _ c l' hne hent hch => exact hn
  | cons a t ih =>
    intro m l₂ hm hnm
    rw [List.cons_append] at hm
    cases hm with
    | step _ c l' hne hent hch =>
      rw [List.cons_append]
      have hna : n ≠ a := fun h => hnm (h ▸ List.mem_cons_self a t)
      refine Chain.step a c (t ++ ln) hne ?_
        (ih hch (fun h => hnm (List.mem_cons_of_mem a h)))
      rw [mapGet_set_ne _ _ _ _ (Ne.symm hna)]
      exact hent

/-- Along a recorded predecessor chain the recorded costs never increase;
hence a node `n` appearing on a chain below `m` has a recorded cost at most
that of `m`. -/
theorem chain_descent {snap : Snapshot} {avoid : Bool} {startId : Nat}
    {s : SearchState} (hinv : SearchInv snap avoid startId s)
    (hnn : SnapNonneg snap) (n : Nat) :
    ∀ {m : Nat} {l : List Nat}, Chain s.cameFrom startId m l →
      ∀ {gm : ℚ}, mapGet s.gScore m = some gm →
      n ∉ l ∨ ∃ gn, mapGet s.gScore n = some gn ∧ gn ≤ gm := by
  intro m l hch
  induction hch with
  | base => intro gm _; exact Or.inl (List.not_mem_nil n)
  | step m c l' hne hent hch ih =>
    intro gm hgm
    obtain ⟨hedge, htoid, _⟩ := hinv.came_edge m c hent
    obtain ⟨gp, gn', hgp, hgn', hle⟩ := hinv.came_g m c hent
    have hgneq : gn' = gm := by
      rw [hgm] at hgn'
      exact (Option.some.inj hgn').symm
    rw [hgneq] at hle
    have hd : 0 ≤ c.edge.distance := neighborsOf_nonneg hnn hedge
    rcases ih hgp with hnot | ⟨gn, hgn, hlegn⟩
    · by_cases hmn : n = m
      · subst hmn
        exact Or.inr ⟨gm, hgm, le_refl gm⟩
      · refine Or.inl ?_
        intro hmem
        rcases List.mem_cons.mp hmem with h | h
        · exact hmn h
        · exact hnot h
    · refine Or.inr ⟨gn, hgn, ?_⟩
      calc gn ≤ gp := hlegn
        _ ≤ gp + c.edge.distance := le_add_of_nonneg_right hd
        _ ≤ gm := hle

theorem relaxEdge_gScore_isSome (snap : Snapshot) (avoid : Bool)
    (goalId currentId : Nat) (s : SearchState) (e : EdgeInfo) {x : Nat}
    (hx : (mapGet s.gScore x).isSome = true) :
    (mapGet (relaxEdge snap avoid goalId currentId s e).gScore x).isSome =
      true := by
  unfold relaxEdge
  dsimp only
  split
  · exact hx
  · split
    · dsimp only
      by_cases hxe : x = e.toId
      · subst hxe
        rw [mapGet_set_self]
        rfl
      · rw [mapGet_set_ne _ _ _ _ hxe]
        exact hx
    · exact hx

/-- Relaxing one adjacency option preserves the search invariant. -/
theorem relaxEdge_inv {snap : Snapshot} {avoid : Bool}
    {startId goalId currentId : Nat} {s : SearchState} {e : EdgeInfo}
    (hinv : SearchInv snap avoid startId s) (hnn : SnapNonneg snap)
    (he : e ∈ neighborsOf snap currentId)
    (hcur : (mapGet s.gScore currentId).isSome = true) :
    SearchInv snap avoid startId
      (relaxEdge snap avoid goalId currentId s e) := by
  obtain ⟨gcur, hgcur⟩ := Option.isSome_iff_exists.mp hcur
  have hd : 0 ≤ e.distance := neighborsOf_nonneg hnn he
  have hgcur0 : 0 ≤ gcur := hinv.g_nonneg currentId gcur hgcur
  unfold relaxEdge
  dsimp only
  split
  · exact hinv
  · rename_i hskip
    split
    · rename_i hbet
      have hcond : mapGet s.gScore e.toId = none ∨
          ∃ g0, mapGet s.gScore e.toId = some g0 ∧
            (mapGet s.gScore currentId).getD 0 + e.distance < g0 := by
        cases hg : mapGet s.gScore e.toId with
        | none => exact Or.inl rfl
        | some g0 =>
          rw [hg] at hbet
          exact Or.inr ⟨g0, rfl, of_decide_eq_true hbet⟩
      simp only [hgcur, Option.getD_some] at hcond ⊢
      have htoid_ne_cur : e.toId ≠ currentId := by
        intro heq
        rcases hcond with hnone | ⟨g0, hsome, hlt⟩
        · rw [heq, hgcur] at hnone
          cases hnone
        · rw [heq, hgcur] at hsome
          have hg0 : gcur = g0 := Option.some.inj hsome
          rw [← hg0] at hlt
          linarith
      have htoid_ne_start : e.toId ≠ startId := by
        intro heq
        rcases hcond with hnone | ⟨g0, hsome, hlt⟩
        · rw [heq, hinv.g_start] at hnone
          cases hnone
        · rw [heq, hinv.g_start] at hsome
          have hg0 : (0 : ℚ) = g0 := Option.some.inj hsome
          rw [← hg0] at hlt
          linarith
      refine ⟨?_, ?_, ?_, ?_, ?_, ?_, ?_⟩
      · intro n c hn
        by_cases hne : n = e.toId
        · subst hne
          rw [mapGet_set_self] at hn
          cases hn
          refine ⟨he, rfl, ?_⟩
          intro havoid
          cases hst : e.is_staircase
          · rfl
          · exfalso
            apply hskip
            rw [havoid, hst]
            rfl
        · rw [mapGet_set_ne _ _ _ _ hne] at hn
          exact hinv.came_edge n c hn
      · intro n c hn
        by_cases hne : n = e.toId
        · subst hne
          rw [mapGet_set_self] at hn
          cases hn
          refine ⟨gcur, gcur + e.distance, ?_, mapGet_set_self _ _ _, ?_⟩
          · rw [mapGet_set_ne _ _ _ _ (Ne.symm htoid_ne_cur)]
            exact hgcur
          · exact le_refl _
        · rw [mapGet_set_ne _ _ _ _ hne] at hn
          obtain ⟨gp, gn, hgp, hgn, hle⟩ := hinv.came_g n c hn
          by_cases hprev : c.prev = e.toId
          · rcases hcond with hnone | ⟨g0, hsome, hlt⟩
            · rw [hprev, hnone] at hgp
              cases hgp
            · rw [hprev, hsome] at hgp
              have hg0 : g0 = gp := Option.some.inj hgp
              refine ⟨gcur + e.distance, gn, ?_, ?_, ?_⟩
              · rw [hprev]
                exact mapGet_set_self _ _ _
              · rw [mapGet_set_ne _ _ _ _ hne]
                exact hgn
              · have h1 : gcur + e.distance ≤ gp := by
                  rw [← hg0]
                  exact le_of_lt hlt
                linarith
          · refine ⟨gp, gn, ?_, ?_, hle⟩
            · rw [mapGet_set_ne _ _ _ _ hprev]
              exact hgp
            · rw [mapGet_set_ne _ _ _ _ hne]
              exact hgn
      · intro n g hg
        by_cases hne : n = e.toId
        · subst hne
          rw [mapGet_set_self] at hg
          cases hg
          exact add_nonneg hgcur0 hd
        · rw [mapGet_set_ne _ _ _ _ hne] at hg
          exact hinv.g_nonneg n g hg
      · rw [mapGet_set_ne _ _ _ _ (Ne.symm htoid_ne_start)]
        exact hinv.g_start
      · rw [mapGet_set_ne _ _ _ _ (Ne.symm htoid_ne_start)]
        exact hinv.came_start
      · obtain ⟨lc, hlc⟩ := hinv.g_chain currentId gcur hgcur
        have hlc' : Chain (mapSet s.cameFrom e.toId
            { prev := currentId, edge := e }) startId currentId lc := by
          rcases chain_descent hinv hnn e.toId hlc hgcur with hnot |
            ⟨gn, hgn, hlegn⟩
          · exact chain_mapSet_not_mem _ hlc hnot
          · exfalso
            rcases hcond with hnone | ⟨g0, hsome, hlt⟩
            · rw [hgn] at hnone
              cases hnone
            · rw [hgn] at hsome
              have hg0 : gn = g0 := Option.some.inj hsome
              rw [← hg0] at hlt
              linarith
        have hchain_to : Chain (mapSet s.cameFrom e.toId
            { prev := currentId, edge := e }) startId e.toId (e.toId :: lc) :=
          Chain.step e.toId { prev := currentId, edge := e } lc
            htoid_ne_start (mapGet_set_self _ _ _) hlc'
        intro m gm hm
        by_cases hme : m = e.toId
        · subst hme
          exact ⟨e.toId :: lc, hchain_to⟩
        · rw [mapGet_set_ne _ _ _ _ hme] at hm
          obtain ⟨lm, hlm⟩ := hinv.g_chain m gm hm
          by_cases hmem : e.toId ∈ lm
          · obtain ⟨l₁, l₂, heq, hchn, hnl₁⟩ := chain_split e.toId hlm hmem
            rw [heq] at hlm
            exact ⟨l₁ ++ (e.toId :: lc), chain_graft hchain_to l₁ hlm hnl₁⟩
          · exact ⟨lm, chain_mapSet_not_mem _ hlm hmem⟩
      · intro x hx
        rcases push_mem.mp hx with h | h
        · by_cases hxe : x.value = e.toId
          · rw [hxe, mapGet_set_self]
            rfl
          · rw [mapGet_set_ne _ _ _ _ hxe]
            exact hinv.heap_g x h
        · rw [h]
          show (mapGet (mapSet s.gScore e.toId (gcur + e.distance))
            e.toId).isSome = true
          rw [mapGet_set_self]
          rfl
    · exact hinv

/-- Folding the relaxation over any list of adjacency options of `currentId`
preserves the search invariant. -/
theorem foldl_relax_inv {snap : Snapshot} {avoid : Bool}
    {startId goalId currentId : Nat} (hnn : SnapNonneg snap) :
    ∀ (es : List EdgeInfo) (s : SearchState),
      SearchInv snap avoid startId s →
      (∀ x ∈ es, x ∈ neighborsOf snap currentId) →
      (mapGet s.gScore currentId).isSome = true →
      SearchInv snap avoid startId
        (es.foldl (relaxEdge snap avoid goalId currentId) s) := by
  intro es
  induction es with
  | nil =>
    intro s hinv _ _
    exact hinv
  | cons e t ih =>
    intro s hinv hes hcur
    rw [List.foldl_cons]
    exact ih _ (relaxEdge_inv hinv hnn (hes e (List.mem_cons_self e t)) hcur)
      (fun x hx => hes x (List.mem_cons_of_mem e hx))
      (relaxEdge_gScore_isSome _ _ _ _ _ _ hcur)

/-- If the A* loop finds the goal starting from an invariant-satisfying state,
the final state still satisfies the invariant and records a cost for the
goal. -/
theorem searchLoop_found_inv {snap : Snapshot} {avoid : Bool}
    {startId goalId : Nat} (hnn : SnapNonneg snap) :
    ∀ (fuel : Nat) (s : SearchState), SearchInv snap avoid startId s →
      ∀ {s' : SearchState},
      searchLoop snap avoid goalId fuel s = some (SearchResult.found s') →
      SearchInv snap avoid startId s' ∧
        (mapGet s'.gScore goalId).isSome = true := by
  intro fuel
  induction fuel with
  | zero =>
    intro s _ s' h
    cases h
  | succ fuel ih =>
    intro s hinv s' hrun
    simp only [searchLoop] at hrun
    cases hpop : s.heap.pop with
    | none =>
      rw [hpop] at hrun
      simp at hrun
    | some pr =>
      obtain ⟨entry, heap'⟩ := pr
      rw [hpop] at hrun
      dsimp only at hrun
      by_cases hvis : s.visited.contains entry.value = true
      · rw [if_pos hvis] at hrun
        refine ih _ ?_ hrun
        exact ⟨hinv.came_edge, hinv.came_g, hinv.g_nonneg, hinv.g_start,
          hinv.came_start, hinv.g_chain,
          fun x hx => hinv.heap_g x (pop_mem hpop hx)⟩
      · rw [if_neg hvis] at hrun
        have hg_cur : (mapGet s.gScore entry.value).isSome = true :=
          hinv.heap_g entry (pop_root_mem hpop)
        have hinv1 : SearchInv snap avoid startId
            { s with heap := heap', visited := entry.value :: s.visited } :=
          ⟨hinv.came_edge, hinv.came_g, hinv.g_nonneg, hinv.g_start,
           hinv.came_start, hinv.g_chain,
           fun x hx => hinv.heap_g x (pop_mem hpop hx)⟩
        by_cases hgoal : entry.value = goalId
        · rw [if_pos hgoal] at hrun
          cases Option.some.inj hrun
          refine ⟨hinv1, ?_⟩
          rw [← hgoal]
          exact hg_cur
        · rw [if_neg hgoal] at hrun
          refine ih _ ?_ hrun
          exact foldl_relax_inv hnn _ _ hinv1 (fun x hx => hx) hg_cur

/-- The initial state of a `findPath` call satisfies the search invariant. -/
theorem initState_inv (snap : Snapshot) (avoid : Bool)
    (startId goalId : Nat) :
    SearchInv snap avoid startId (initState snap startId goalId) := by
  refine ⟨?_, ?_, ?_, ?_, ?_, ?_, ?_⟩
  · intro n c hn
    simp [mapGet, initState] at hn
  · intro n c hn
    simp [mapGet, initState] at hn
  · intro n g hg
    obtain ⟨_, hg0⟩ := mapGet_singleton hg
    rw [hg0]
  · exact mapGet_set_self [] startId 0
  · rfl
  · intro n g hg
    obtain ⟨hn, _⟩ := mapGet_singleton hg
    subst hn
    exact ⟨[], Chain.base⟩
  · intro x hx
    rcases push_mem.mp hx with h | h
    · cases h
    · rw [h]
      simp only [mapGet, initState]
      rw [List.find?_cons_of_pos _ (by simp)]
      rfl

/-! ### From database invariants to snapshot invariants -/

theorem build_nonneg {db : Database} (h : DbNonneg db) :
    SnapNonneg (Snapshot.build db) := by
  intro e he
  exact h e (List.mem_of_mem_filter he)

theorem build_closed {db : Database} (h : DbClosed db) :
    SnapClosed (Snapshot.build db) := by
  intro e he
  have hmem : e ∈ db.edges := List.mem_of_mem_filter he
  have hact : e.is_active = true := by
    have h2 := List.of_mem_filter he
    exact h2
  obtain ⟨⟨n1, hn1, hid1⟩, ⟨n2, hn2, hid2⟩⟩ := h e hmem hact
  constructor
  · show db.nodes.any (fun n => n.node_id == e.from_node_id) = true
    exact List.any_eq_true.mpr ⟨n1, hn1, beq_iff_eq.mpr hid1⟩
  · show db.nodes.any (fun n => n.node_id == e.to_node_id) = true
    exact List.any_eq_true.mpr ⟨n2, hn2, beq_iff_eq.mpr hid2⟩

theorem resolve_hasNode {db : Database} {code : String} {sn : Node}
    (h : resolveCode db code = some sn) :
    hasNode (Snapshot.build db) sn.node_id = true := by
  have hmem : sn ∈ db.nodes := List.mem_of_find?_eq_some h
  show db.nodes.any (fun n => n.node_id == sn.node_id) = true
  exact List.any_eq_true.mpr ⟨sn, hmem, beq_self_eq_true _⟩

/-! ### Predecessor chains yield stair-free walks -/

theorem stairFreeWalk_snoc {snap : Snapshot} :
    ∀ {a b : Nat}, StairFreeWalk snap a b →
      ∀ {e : EdgeInfo}, e ∈ neighborsOf snap b → e.is_staircase = false →
      StairFreeWalk snap a e.toId := by
  intro a b h
  induction h with
  | refl a =>
    intro e he hs
    exact StairFreeWalk.step a e e.toId he hs (StairFreeWalk.refl _)
  | step a e' b he' hs' _ ih =>
    intro e he hs
    exact StairFreeWalk.step a e' e.toId he' hs' (ih he hs)

/-- With stairs avoided, every recorded predecessor chain corresponds to a
stair-free walk from the start. -/
theorem chain_walk {snap : Snapshot} {startId : Nat} {s : SearchState}
    (hinv : SearchInv snap true startId s) :
    ∀ {m : Nat} {l : List Nat}, Chain s.cameFrom startId m l →
      StairFreeWalk snap startId m := by
  intro m l hch
  induction hch with
  | base => exact StairFreeWalk.refl _
  | step n c l' hne hent hch ih =>
    obtain ⟨hmem, htoId, hstair⟩ := hinv.came_edge n c hent
    have hw := stairFreeWalk_snoc ih hmem (hstair rfl)
    rw [htoId] at hw
    exact hw

/-! ### Properties of the reconstruction loop -/

/-- Every step the reconstruction loop emits beyond its accumulator comes from
a recorded `cameFrom` entry and its cached node. -/
theorem reconstructGo_steps {snap : Snapshot} {cf : List (Nat × Came)}
    {startId : Nat} :
    ∀ (fuel : Nat) (currentId : Nat) (acc : List PathStep)
      {p : List PathStep},
      reconstructGo snap cf startId fuel currentId acc = some p →
      ∀ st ∈ p, st ∈ acc ∨
        ∃ n c node, mapGet cf n = some c ∧ cacheGet snap n = some node ∧
          st = mkStep node c.edge := by
  intro fuel
  induction fuel with
  | zero =>
    intro currentId acc p hp st hst
    simp only [reconstructGo] at hp
    by_cases hcs : currentId = startId
    · rw [if_pos hcs] at hp
      cases Option.some.inj hp
      exact Or.inl hst
    · rw [if_neg hcs] at hp
      cases hp
  | succ fuel ih =>
    intro currentId acc p hp st hst
    simp only [reconstructGo] at hp
    by_cases hcs : currentId = startId
    · rw [if_pos hcs] at hp
      cases Option.some.inj hp
      exact Or.inl hst
    · rw [if_neg hcs] at hp
      cases hcf : mapGet cf currentId with
      | none =>
        rw [hcf] at hp
        dsimp only at hp
        cases Option.some.inj hp
        exact Or.inl hst
      | some c =>
        rw [hcf] at hp
        dsimp only at hp
        cases hcache : cacheGet snap currentId with
        | none =>
          rw [hcache] at hp
          cases hp
        | some node =>
          rw [hcache] at hp
          dsimp only at hp
          rcases ih c.prev (acc ++ [mkStep node c.edge]) hp st hst with
            hmem | hex
          · rcases List.mem_append.mp hmem with h | h
            · exact Or.inl h
            · rw [List.mem_singleton] at h
              exact Or.inr ⟨currentId, c, node, hcf, hcache, h⟩
          · exact Or.inr hex

/-- The step distances the reconstruction loop emits telescope: their sum is
bounded by the recorded cost of the node the loop starts from. -/
theorem reconstructGo_sum {snap : Snapshot} {avoid : Bool} {startId : Nat}
    {s : SearchState} (hinv : SearchInv snap avoid startId s) :
    ∀ (fuel : Nat) (currentId : Nat) (acc : List PathStep) (gcur : ℚ),
      mapGet s.gScore currentId = some gcur →
      ∀ {p : List PathStep},
        reconstructGo snap s.cameFrom startId fuel currentId acc = some p →
        sumDist p ≤ sumDist acc + gcur := by
  intro fuel
  induction fuel with
  | zero =>
    intro currentId acc gcur hg p hp
    simp only [reconstructGo] at hp
    by_cases hcs : currentId = startId
    · rw [if_pos hcs] at hp
      cases Option.some.inj hp
      have := hinv.g_nonneg currentId gcur hg
      linarith
    · rw [if_neg hcs] at hp
      cases hp
  | succ fuel ih =>
    intro currentId acc gcur hg p hp
    simp only [reconstructGo] at hp
    by_cases hcs : currentId = startId
    · rw [if_pos hcs] at hp
      cases Option.some.inj hp
      have := hinv.g_nonneg currentId gcur hg
      linarith
    · rw [if_neg hcs] at hp
      cases hcf : mapGet s.cameFrom currentId with
      | none =>
        rw [hcf] at hp
        dsimp only at hp
        cases Option.some.inj hp
        have := hinv.g_nonneg currentId gcur hg
        linarith
      | some c =>
        rw [hcf] at hp
        dsimp only at hp
        cases hcache : cacheGet snap currentId with
        | none =>
          rw [hcache] at hp
          cases hp
        | some node =>
          rw [hcache] at hp
          dsimp only at hp
          obtain ⟨gp, gn, hgp, hgn, hle⟩ := hinv.came_g currentId c hcf
          have hgeq : gn = gcur := by
            rw [hg] at hgn
            exact (Option.some.inj hgn).symm
          have hih := ih c.prev (acc ++ [mkStep node c.edge]) gp hgp hp
          have hsum : sumDist (acc ++ [mkStep node c.edge]) =
              sumDist acc + c.edge.distance := by
            simp [sumDist, mkStep]
          rw [hsum] at hih
          linarith

/-- On a closed snapshot the reconstruction loop cannot crash: started at any
node with a recorded predecessor chain, with fuel above the chain length, it
returns a step list. -/
theorem reconstructGo_some {snap : Snapshot} {avoid : Bool} {startId : Nat}
    {s : SearchState} (hcl : SnapClosed snap)
    (hinv : SearchInv snap avoid startId s) :
    ∀ {m : Nat} {l : List Nat}, Chain s.cameFrom startId m l →
      ∀ (fuel : Nat), l.length < fuel → ∀ (acc : List PathStep),
        (reconstructGo snap s.cameFrom startId fuel m acc).isSome = true := by
  intro m l hch
  induction hch with
  | base =>
    intro fuel hf acc
    cases fuel with
    | zero => exact absurd hf (Nat.not_lt_zero _)
    | succ fuel =>
      simp only [reconstructGo]
      rw [if_pos trivial]
      rfl
  | step n c l' hne hent hch ih =>
    intro fuel hf acc
    cases fuel with
    | zero => exact absurd hf (Nat.not_lt_zero _)
    | succ fuel =>
      simp only [reconstructGo]
      rw [if_neg hne, hent]
      dsimp only
      obtain ⟨hmem, htoId, _⟩ := hinv.came_edge n c hent
      have hhn : hasNode snap n = true := by
        rw [← htoId]
        exact snapClosed_target hcl hmem
      obtain ⟨node, hnode⟩ :=
        Option.isSome_iff_exists.mp (cacheGet_isSome_iff.mpr hhn)
      rw [hnode]
      dsimp only
      have hlen : l'.length < fuel := by
        rw [List.length_cons] at hf
        omega
      exact ih fuel hlen _

/-- On a closed snapshot, when the search has found the goal and the start is
a cached node, `reconstructPath` succeeds. -/
theorem reconstructPath_some {snap : Snapshot} {avoid : Bool}
    {startId goalId : Nat} {s : SearchState} (hcl : SnapClosed snap)
    (hinv : SearchInv snap avoid startId s)
    (hstart : hasNode snap startId = true)
    (hg : (mapGet s.gScore goalId).isSome = true) (td : ℚ) :
    (reconstructPath snap s.cameFrom startId goalId td).isSome = true := by
  obtain ⟨gg, hgg⟩ := Option.isSome_iff_exists.mp hg
  obtain ⟨l, hch⟩ := hinv.g_chain goalId gg hgg
  have hlen : l.length < s.cameFrom.length + 1 :=
    Nat.lt_succ_of_le (chain_keys_le hch)
  have hrec := reconstructGo_some hcl hinv hch (s.cameFrom.length + 1) hlen []
  unfold reconstructPath
  cases hr : reconstructGo snap s.cameFrom startId (s.cameFrom.length + 1)
      goalId [] with
  | none =>
    rw [hr] at hrec
    simp at hrec
  | some p =>
    dsimp only
    obtain ⟨node, hnode⟩ :=
      Option.isSome_iff_exists.mp (cacheGet_isSome_iff.mpr hstart)
    rw [hnode]
    rfl

/-- Anatomy of a successful `findPath` call: both codes resolve, the search
finds the goal, the reconstruction succeeds, and the result's fields come from
the reconstruction. -/
theorem findPath_ok_cases {pf : PathFinder} {db : Database}
    {startCode goalCode : String} {avoid : Bool} {r : PathResult}
    (h : (pf.findPath db startCode goalCode avoid).1 = FindOutcome.ok r) :
    ∃ sn gn s p startNode,
      resolveCode db startCode = some sn ∧
      resolveCode db goalCode = some gn ∧
      searchOutcome (if pf.built then pf.snap else Snapshot.build db) avoid
          sn.node_id gn.node_id = some (SearchResult.found s) ∧
      reconstructGo (if pf.built then pf.snap else Snapshot.build db)
          s.cameFrom sn.node_id (s.cameFrom.length + 1) gn.node_id [] =
        some p ∧
      cacheGet (if pf.built then pf.snap else Snapshot.build db) sn.node_id =
        some startNode ∧
      r.path = (p ++ [mkStartStep startNode]).reverse ∧
      r.total_distance = round2 ((mapGet s.gScore gn.node_id).getD 0) := by
  cases hs : resolveCode db startCode with
  | none =>
    rw [findPath_eq_of_unresolved_start goalCode avoid hs] at h
    cases h
  | some sn =>
  cases hg : resolveCode db goalCode with
  | none =>
    rw [findPath_eq_of_unresolved_goal avoid hs hg] at h
    cases h
  | some gn =>
  rw [findPath_eq_of_resolved hs hg] at h
  cases hso : searchOutcome (if pf.built then pf.snap else Snapshot.build db)
      avoid sn.node_id gn.node_id with
  | none =>
    rw [hso] at h
    cases h
  | some res =>
  rw [hso] at h
  cases res with
  | exhausted =>
    dsimp only at h
    cases h
  | found s =>
    dsimp only at h
    simp only [reconstructPath] at h
    cases hrec : reconstructGo (if pf.built then pf.snap
        else Snapshot.build db) s.cameFrom sn.node_id
        (s.cameFrom.length + 1) gn.node_id [] with
    | none =>
      rw [hrec] at h
      dsimp only at h
      cases h
    | some p =>
      rw [hrec] at h
      dsimp only at h
      cases hcache : cacheGet (if pf.built then pf.snap
          else Snapshot.build db) sn.node_id with
      | none =>
        rw [hcache] at h
        dsimp only at h
        cases h
      | some startNode =>
        rw [hcache] at h
        dsimp only at h
        have hr := FindOutcome.ok.inj h
        refine ⟨sn, gn, s, p, startNode, rfl, rfl, hso, hrec, hcache, ?_, ?_⟩
        · rw [← hr]
        · rw [← hr]

/-- In the concrete scenario `dbABC`, the only stair-free adjacency options
connect `A` and `B`, so every stair-free walk starting in `{A, B}` stays
there; in particular no stair-free walk reaches `C`. -/
theorem no_stairfree_walk_dbABC :
    ¬ StairFreeWalk (Snapshot.build dbABC) 1 3 := by
  have key : ∀ a b, StairFreeWalk (Snapshot.build dbABC) a b →
      a = 1 ∨ a = 2 → b = 1 ∨ b = 2 := by
    intro a b h
    induction h with
    | refl a => exact fun h => h
    | step a e b he hs _ ih =>
      intro ha
      apply ih
      rcases ha with ha | ha <;> subst ha
      · have h1 : neighborsOf (Snapshot.build dbABC) 1 =
            [{ toId := 2, distance := 10, compass_angle := 90,
               is_staircase := false, edge_id := 1 }] := by decide
        rw [h1, List.mem_singleton] at he
        subst he
        exact Or.inr rfl
      · have h2 : neighborsOf (Snapshot.build dbABC) 2 =
            [{ toId := 1, distance := 10, compass_angle := 270,
               is_staircase := false, edge_id := 1 },
             { toId := 3, distance := 5, compass_angle := 0,
               is_staircase := true, edge_id := 2 }] := by decide
        rw [h2] at he
        rcases List.mem_cons.mp he with he | he
        · subst he
          exact Or.inl rfl
        · rw [List.mem_singleton] at he
          subst he
          cases hs
  intro hw
  rcases key 1 3 hw (Or.inl rfl) with h | h <;> exact absurd h (by decide)

/-- Claim C1: for every database with non-negative edge distances, a
`findPath` call with `avoidStairs = true` never returns a successful path
containing a step flagged as a staircase; and when the resolved start and goal
are not connected by any stair-free walk of the built snapshot — every route
uses at least one staircase adjacency option — the call returns the
`NoPathFound` error. -/
theorem c1_avoid_stairs (db : Database) (startCode goalCode : String)
    (hnn : DbNonneg db) :
    (∀ r, (PathFinder.init.findPath db startCode goalCode true).1 =
        FindOutcome.ok r → ∀ st ∈ r.path, st.is_staircase = false) ∧
    (∀ sn gn, resolveCode db startCode = some sn →
      resolveCode db goalCode = some gn →
      ¬ StairFreeWalk (Snapshot.build db) sn.node_id gn.node_id →
      (PathFinder.init.findPath db startCode goalCode true).1 =
        FindOutcome.err RouteError.noPathFound) := by
  have hnn' : SnapNonneg (Snapshot.build db) := build_nonneg hnn
  constructor
  · intro r hok st hst
    obtain ⟨sn, gn, s, p, startNode, hs, hg, hso, hrec, hcache, hpath, _⟩ :=
      findPath_ok_cases hok
    have hsnap : (if PathFinder.init.built then PathFinder.init.snap
        else Snapshot.build db) = Snapshot.build db := rfl
    rw [hsnap] at hso hrec hcache
    unfold searchOutcome at hso
    obtain ⟨hinv, hgoal⟩ := searchLoop_found_inv hnn' _ _
      (initState_inv (Snapshot.build db) true sn.node_id gn.node_id) hso
    rw [hpath, List.mem_reverse, List.mem_append] at hst
    rcases hst with hst | hst
    · rcases reconstructGo_steps _ _ _ hrec st hst with hmem |
        ⟨n, c, node, hcf, _, hsteq⟩
      · cases hmem
      · obtain ⟨_, _, hstair⟩ := hinv.came_edge n c hcf
        rw [hsteq]
        exact hstair rfl
    · rw [List.mem_singleton] at hst
      rw [hst]
      rfl
  · intro sn gn hs hg hnowalk
    rw [findPath_eq_of_resolved hs hg]
    have hsnap : (if PathFinder.init.built then PathFinder.init.snap
        else Snapshot.build db) = Snapshot.build db := rfl
    rw [hsnap]
    cases hso : searchOutcome (Snapshot.build db) true sn.node_id
        gn.node_id with
    | none =>
      have hsome := searchOutcome_isSome (Snapshot.build db) true sn.node_id
        gn.node_id
      rw [hso] at hsome
      simp at hsome
    | some res =>
      cases res with
      | exhausted => rfl
      | found s =>
        exfalso
        unfold searchOutcome at hso
        obtain ⟨hinv, hgoal⟩ := searchLoop_found_inv hnn' _ _
          (initState_inv (Snapshot.build db) true sn.node_id gn.node_id) hso
        obtain ⟨gg, hgg⟩ := Option.isSome_iff_exists.mp hgoal
        obtain ⟨l, hch⟩ := hinv.g_chain gn.node_id gg hgg
        exact hnowalk (chain_walk hinv hch)

/-- Claim C1 witness: on the concrete scenario `dbABC` (whose only route from
`A` to `C` uses a staircase), part two of the claim applied to the concrete
refutation of a stair-free walk yields the no-path error. -/
theorem c1_avoid_stairs_witness :
    DbNonneg dbABC ∧
    (PathFinder.init.findPath dbABC ("A") ("C") true).1 =
      FindOutcome.err RouteError.noPathFound :=
  ⟨by unfold DbNonneg; decide,
   (c1_avoid_stairs dbABC ("A") ("C") (by unfold DbNonneg; decide)).2
     (mkNode 1 ("A") 0) (mkNode 3 ("C") 1) (by decide) (by decide)
     no_stairfree_walk_dbABC⟩

/-- Claim C2 (amended): for every database with non-negative edge distances,
whenever `findPath` returns a successful result, its `total_distance` is the
goal's final recorded cost rounded to two decimal places, that cost is
non-negative, and the sum of the steps' `distance_from_prev` fields is at most
that cost (the counterexample above shows the two need not be equal). -/
theorem c2_total_distance_amended (db : Database)
    (startCode goalCode : String) (avoid : Bool) (hnn : DbNonneg db)
    (r : PathResult)
    (hok : (PathFinder.init.findPath db startCode goalCode avoid).1 =
      FindOutcome.ok r) :
    ∃ g : ℚ, 0 ≤ g ∧ r.total_distance = round2 g ∧ sumDist r.path ≤ g := by
  obtain ⟨sn, gn, s, p, startNode, hs, hg, hso, hrec, hcache, hpath, htot⟩ :=
    findPath_ok_cases hok
  have hsnap : (if PathFinder.init.built then PathFinder.init.snap
      else Snapshot.build db) = Snapshot.build db := rfl
  rw [hsnap] at hso hrec hcache
  unfold searchOutcome at hso
  obtain ⟨hinv, hgoal⟩ := searchLoop_found_inv (build_nonneg hnn) _ _
    (initState_inv (Snapshot.build db) avoid sn.node_id gn.node_id) hso
  obtain ⟨gg, hgg⟩ := Option.isSome_iff_exists.mp hgoal
  refine ⟨gg, hinv.g_nonneg _ _ hgg, ?_, ?_⟩
  · rw [htot, hgg]
    rfl
  · have hsum := reconstructGo_sum hinv _ _ [] gg hgg hrec
    have h0 : sumDist ([] : List PathStep) = 0 := rfl
    rw [h0, zero_add] at hsum
    rw [hpath]
    have hrev : sumDist ((p ++ [mkStartStep startNode]).reverse) =
        sumDist p := by
      simp [sumDist, mkStartStep, List.sum_reverse]
    rw [hrev]
    exact hsum

/-- Claim C2 (amended) witness: on `dbOverestimate` the call succeeds and the
amended relation holds for the returned result. -/
theorem c2_total_distance_amended_witness :
    DbNonneg dbOverestimate ∧
    ∃ r, (PathFinder.init.findPath dbOverestimate ("S") ("G") false).1 =
        FindOutcome.ok r ∧
      ∃ g : ℚ, 0 ≤ g ∧ r.total_distance = round2 g ∧ sumDist r.path ≤ g := by
  have hnn : DbNonneg dbOverestimate := by
    unfold DbNonneg
    decide
  refine ⟨hnn, ?_⟩
  cases hr : (PathFinder.init.findPath dbOverestimate ("S") ("G") false).1 with
  | ok r =>
    exact ⟨r, rfl,
      c2_total_distance_amended dbOverestimate ("S") ("G") false hnn r hr⟩
  | err e =>
    have hok : (PathFinder.init.findPath dbOverestimate ("S") ("G")
        false).1.isOk = true := by decide
    rw [hr] at hok
    simp [FindOutcome.isOk] at hok
  | crash =>
    have hok : (PathFinder.init.findPath dbOverestimate ("S") ("G")
        false).1.isOk = true := by decide
    rw [hr] at hok
    simp [FindOutcome.isOk] at hok

/-- Claim C4: on a fresh engine over a database with referential integrity and
non-negative edge distances, `findPath` returns the start/goal-not-found error
exactly when the respective code fails to resolve in the data layer, and the
error message carries the offending code verbatim; when both codes resolve,
the only possible outcomes are a successful path or the no-path error, and
the no-path error occurs exactly when the A* loop exhausts its open set
before popping the goal. -/
theorem c4_error_taxonomy (db : Database) (startCode goalCode : String)
    (avoid : Bool) (hcl : DbClosed db) (hnn : DbNonneg db) :
    (resolveCode db startCode = none →
      (PathFinder.init.findPath db startCode goalCode avoid).1 =
        FindOutcome.err (RouteError.startNotFound startCode) ∧
      (RouteError.startNotFound startCode).message =
        "Start node not found: " ++ startCode) ∧
    (∀ sn, resolveCode db startCode = some sn →
      resolveCode db goalCode = none →
      (PathFinder.init.findPath db startCode goalCode avoid).1 =
        FindOutcome.err (RouteError.goalNotFound goalCode) ∧
      (RouteError.goalNotFound goalCode).message =
        "Goal node not found: " ++ goalCode) ∧
    (∀ sn gn, resolveCode db startCode = some sn →
      resolveCode db goalCode = some gn →
      ((PathFinder.init.findPath db startCode goalCode avoid).1 =
          FindOutcome.err RouteError.noPathFound ↔
        searchOutcome (Snapshot.build db) avoid sn.node_id gn.node_id =
          some SearchResult.exhausted) ∧
      ((∃ r, (PathFinder.init.findPath db startCode goalCode avoid).1 =
          FindOutcome.ok r) ∨
        (PathFinder.init.findPath db startCode goalCode avoid).1 =
          FindOutcome.err RouteError.noPathFound)) := by
  refine ⟨?_, ?_, ?_⟩
  · intro hs
    exact ⟨findPath_eq_of_unresolved_start goalCode avoid hs, rfl⟩
  · intro sn hs hg
    exact ⟨findPath_eq_of_unresolved_goal avoid hs hg, rfl⟩
  · intro sn gn hs hg
    rw [findPath_eq_of_resolved hs hg]
    have hsnap : (if PathFinder.init.built then PathFinder.init.snap
        else Snapshot.build db) = Snapshot.build db := rfl
    rw [hsnap]
    cases hso : searchOutcome (Snapshot.build db) avoid sn.node_id
        gn.node_id with
    | none =>
      have hsome := searchOutcome_isSome (Snapshot.build db) avoid sn.node_id
        gn.node_id
      rw [hso] at hsome
      simp at hsome
    | some res =>
      cases res with
      | exhausted =>
        exact ⟨⟨fun _ => rfl, fun _ => rfl⟩, Or.inr rfl⟩
      | found s =>
        dsimp only
        unfold searchOutcome at hso
        obtain ⟨hinv, hgoal⟩ := searchLoop_found_inv (build_nonneg hnn) _ _
          (initState_inv (Snapshot.build db) avoid sn.node_id gn.node_id) hso
        have hrp := reconstructPath_some (build_closed hcl) hinv
          (resolve_hasNode hs) hgoal ((mapGet s.gScore gn.node_id).getD 0)
        cases hrpe : reconstructPath (Snapshot.build db) s.cameFrom sn.node_id
            gn.node_id ((mapGet s.gScore gn.node_id).getD 0) with
        | none =>
          rw [hrpe] at hrp
          simp at hrp
        | some r =>
          dsimp only
          refine ⟨⟨fun h => ?_, fun h => ?_⟩, Or.inl ⟨r, rfl⟩⟩
          · cases h
          · simp at h

/-- Claim C4 witness: the taxonomy applied to the concrete scenario `dbABC`
with an unknown start code yields the start-not-found error. -/
theorem c4_error_taxonomy_witness :
    DbClosed dbABC ∧ DbNonneg dbABC ∧
    (PathFinder.init.findPath dbABC ("Z") ("C") false).1 =
      FindOutcome.err (RouteError.startNotFound ("Z")) := by
  have hcl : DbClosed dbABC := by
    unfold DbClosed
    decide
  have hnn : DbNonneg dbABC := by
    unfold DbNonneg
    decide
  exact ⟨hcl, hnn,
    ((c4_error_taxonomy dbABC ("Z") ("C") false hcl hnn).1 (by decide)).1⟩

end PathApi